import Mathlib

set_option maxHeartbeats 1000000

/-!
Shallow embedding of the tile-primitive program-construction layer
(`tile_array_primitives_impl.cpp` and `tile_interpreter_primitives_impl.cpp`).

The Poplar graph is modelled as an explicit state value: a list of allocated
variables and a list of compute sets.  A tensor handle is a view: an element
type, the shape of one leading-axis item, and one storage slot per
leading-axis index.  Emitted programs are lists of copy / execute steps, and
runtime data movement is modelled by running those steps over a store mapping
storage slots to abstract item values.  C++ exceptions become `Except` errors;
unchecked `std::vector::operator[]` accesses out of range (undefined behaviour
in the source) are modelled as a distinguished `oobAccess` error.  Where the
equation compiler can fail half-way, the error carries the graph as mutated so
far, since a thrown C++ exception does not roll back mutations of the graph
passed by reference.
-/

/-- Poplar element types appearing in the sources (the 64-bit ones are listed
because the barrier reinterpretation has no entry for them). -/
inductive IpuType where
  | bool
  | char
  | signed_char
  | unsigned_char
  | short
  | unsigned_short
  | half
  | int
  | unsigned_int
  | float
  | long
  | unsigned_long
  | longlong
  | unsigned_longlong
  | double
deriving DecidableEq

/-- One unit of tensor storage: leading-axis slot `idx` of graph variable
`var`. -/
structure TensorSlot where
  var : Nat
  idx : Nat
deriving DecidableEq

instance : Inhabited TensorSlot := ⟨⟨0, 0⟩⟩

/-- A tensor handle: element type, shape of one leading-axis item, and the
storage slot backing each leading-axis index. -/
structure Tensor where
  dtype : IpuType
  itemShape : List Nat
  slots : List TensorSlot
deriving DecidableEq

instance : Inhabited Tensor := ⟨⟨.float, [], []⟩⟩

/-- A variable allocated in the graph: element type, per-item shape, number of
leading-axis slots and the tile each slot is mapped to. -/
structure GraphVar where
  dtype : IpuType
  itemShape : List Nat
  numSlots : Nat
  tileMapping : List Int
deriving DecidableEq

/-- A vertex instance: vertex name, tile, optional perf estimate, named port
connections and static attributes. -/
structure Vertex where
  vname : String
  tile : Int
  perf : Option Nat
  connections : List (String × List TensorSlot)
  attrs_u32 : List (String × Nat)
  attrs_f32 : List (String × Float)

/-- The graph-building state: allocated variables and compute sets. -/
structure Graph where
  vars : List GraphVar
  computeSets : List (List Vertex)

/-- Construction-time failures: errors deliberately thrown by the source
(`poplibs_error`, `runtime_error`, assertion or `.at` out-of-range), versus an
unchecked out-of-bounds `std::vector` indexing (undefined behaviour). -/
inductive BuildError where
  | validation (msg : String)
  | oobAccess
deriving DecidableEq

/-- One step of an emitted Poplar program. -/
inductive Prog where
  | copy (src dst : Tensor)
  | execute (cs : Nat)
deriving DecidableEq

/-- Runtime contents of storage: an abstract item value per slot. -/
abbrev Store := Nat → Nat → Int

def readSlot (s : Store) (t : TensorSlot) : Int := s t.var t.idx

def storeSet (s : Store) (d : TensorSlot) (val : Int) : Store :=
  fun v i => if v = d.var ∧ i = d.idx then val else s v i

/-- Bulk copy over paired slots: all sources are read from the store `s0` as it
was when the copy started. -/
def copyPairs (s0 : Store) : List (TensorSlot × TensorSlot) → Store → Store
  | [], acc => acc
  | (a, d) :: rest, acc => copyPairs s0 rest (storeSet acc d (readSlot s0 a))

def applyCopy (src dst : Tensor) (s : Store) : Store :=
  copyPairs s (src.slots.zip dst.slots) s

/-- A barrier vertex is a pass-through (the data port is both read and written
unchanged), so executing a compute set does not change the store. -/
def applyProg : Prog → Store → Store
  | .copy src dst, s => applyCopy src dst s
  | .execute _, s => s

def runProg : List Prog → Store → Store
  | [], s => s
  | p :: ps, s => runProg ps (applyProg p s)

/-- `graph.addVariable(type, shape)`: a fresh one-item variable with no tile
mapping yet. -/
def Graph.addVariable (g : Graph) (dtype : IpuType) (itemShape : List Nat) :
    Graph × Nat :=
  ({ g with vars := g.vars ++ [⟨dtype, itemShape, 1, []⟩] }, g.vars.length)

/-- `graph.setTileMapping(t, tile)`: map every slot of the variable to one
tile. -/
def Graph.setTileMapping (g : Graph) (v : Nat) (tile : Int) : Graph :=
  match g.vars.get? v with
  | some gv =>
      { g with
        vars := g.vars.set v { gv with tileMapping := List.replicate gv.numSlots tile } }
  | none => g

def Graph.addComputeSet (g : Graph) : Graph × Nat :=
  ({ g with computeSets := g.computeSets ++ [[]] }, g.computeSets.length)

def Graph.appendVertex (g : Graph) (cs : Nat) (v : Vertex) : Graph :=
  match g.computeSets.get? cs with
  | some vs => { g with computeSets := g.computeSets.set cs (vs ++ [v]) }
  | none => g

/-- Unchecked `std::vector::operator[]`: out of range is undefined behaviour,
modelled as the `oobAccess` error. -/
def oget : Option α → Except BuildError α
  | some a => .ok a
  | none => .error .oobAccess

/-- Indexing a list by a C++ `int32_t` value. -/
def intGet? (l : List α) (i : Int) : Option α :=
  if i < 0 then none else l.get? i.toNat

/-- Modelled from the spec: `createShardedVariable` is defined in
`tile_array_utils.hpp`, which is not among the provided sources.  Per the spec
(§4.1 and §3, Tile Placement Utilities) it allocates a fresh tensor already
partitioned across the requested tile list: one leading-axis slot per tile
entry, per-slot shape equal to the given item shape, the given element type,
and slot `i` mapped to `tiles[i]`. -/
def createShardedVariable (g : Graph) (dtype : IpuType) (itemShape : List Nat)
    (tiles : List Int) : Graph × Tensor :=
  ({ g with vars := g.vars ++ [⟨dtype, itemShape, tiles.length, tiles⟩] },
   ⟨dtype, itemShape, (List.range tiles.length).map (fun i => ⟨g.vars.length, i⟩)⟩)

/-- `TilePutShardedPrimitive::program`. -/
def TilePutShardedPrimitive.program (g : Graph) (inputs : List Tensor)
    (tile_array : List Int) :
    Except BuildError (Graph × List Prog × List Tensor) :=
  match inputs with
  | [input] =>
    if input.slots.length ≠ tile_array.length then
      .error (.validation "IPU tile put sharding: inconsistent input size and tiles length.")
    else
      let (g', output) := createShardedVariable g input.dtype input.itemShape tile_array
      .ok (g', [Prog.copy input output], [output])
  | _ => .error (.validation "IPU tile put sharded expecting a single input tensor.")

/-- `TileGatherParams`: previous tile mapping, gather indices, new tile
mapping (all `int32_t` in the source). -/
structure TileGatherParams where
  previous_tiles : List Int
  indices : List Int
  tiles : List Int
deriving DecidableEq

/-- A one-item view (an `expand({0})` of a single slice). -/
def itemTensor (dtype : IpuType) (itemShape : List Nat) (s : TensorSlot) : Tensor :=
  ⟨dtype, itemShape, [s]⟩

/-- The loop body of `TileGatherPrimitive::program`, iterated over the
destination slot indices. -/
def gatherLoop (input : Tensor) (p : TileGatherParams) :
    List Nat → Graph → Except BuildError (Graph × List Prog × List TensorSlot)
  | [], g => .ok (g, [], [])
  | idx :: rest, g => do
    let gather_idx ← oget (p.indices.get? idx)
    let input_item ← oget (intGet? input.slots gather_idx)
    let input_tile ← oget (intGet? p.previous_tiles gather_idx)
    let output_tile ← oget (p.tiles.get? idx)
    if input_tile = output_tile then do
      let (g', progs, slots) ← gatherLoop input p rest g
      .ok (g', progs, input_item :: slots)
    else do
      let (g1, v) := g.addVariable input.dtype input.itemShape
      let g2 := g1.setTileMapping v output_tile
      let outSlot : TensorSlot := ⟨v, 0⟩
      let cp := Prog.copy (itemTensor input.dtype input.itemShape input_item)
                          (itemTensor input.dtype input.itemShape outSlot)
      let (g', progs, slots) ← gatherLoop input p rest g2
      .ok (g', cp :: progs, outSlot :: slots)

/-- `TileGatherPrimitive::program`: loop over destination slots, then
concatenate the per-slot slices along the leading axis. -/
def TileGatherPrimitive.program (g : Graph) (inputs : List Tensor)
    (p : TileGatherParams) : Except BuildError (Graph × List Prog × Tensor) :=
  match inputs with
  | [input] => do
    let (g', progs, slots) ← gatherLoop input p (List.range p.tiles.length) g
    .ok (g', progs, (⟨input.dtype, input.itemShape, slots⟩ : Tensor))
  | _ => .error (.validation "IPU tile gather expecting a single input tensor.")

/-- `TileDataBarrierParams`: vertex name, per-input tile arrays, maximum tile
index used by the inputs. -/
structure TileDataBarrierParams where
  vname : String
  inputs_tiles : List (List Int)
  max_tile : Int

/-- `tileBarrierReinterpretTensor`: reinterpret a tensor to the reference
unsigned type of its bit width, following the if-chain of the source. -/
def tileBarrierReinterpretTensor (t : Tensor) : Except BuildError Tensor :=
  if t.dtype = .bool then .ok { t with dtype := .unsigned_char }
  else if t.dtype = .char then .ok { t with dtype := .unsigned_char }
  else if t.dtype = .signed_char then .ok { t with dtype := .unsigned_char }
  else if t.dtype = .unsigned_char then .ok { t with dtype := .unsigned_char }
  else if t.dtype = .short then .ok { t with dtype := .unsigned_short }
  else if t.dtype = .unsigned_short then .ok { t with dtype := .unsigned_short }
  else if t.dtype = .half then .ok { t with dtype := .unsigned_short }
  else if t.dtype = .int then .ok { t with dtype := .unsigned_int }
  else if t.dtype = .unsigned_int then .ok { t with dtype := .unsigned_int }
  else if t.dtype = .float then .ok { t with dtype := .unsigned_int }
  else .error (.validation "Unknown Poplar tensor type in tile data barrier.")

/-- Inner bucketing loop of `TileDataBarrierPrimitive::program`: distribute
the slots of one reinterpreted input over the per-tile buckets
(`tensors_per_tiles[tiles[k]].push_back(in_reinterpret[k])`). -/
def barrierTileLoop (tiles : List Int) (rt : Tensor) :
    List Nat → List (List TensorSlot) →
    Except BuildError (List (List TensorSlot))
  | [], buckets => .ok buckets
  | k :: rest, buckets => do
    let t ← oget (tiles.get? k)
    let slot ← oget (rt.slots.get? k)
    let b ← oget (intGet? buckets t)
    barrierTileLoop tiles rt rest (buckets.set t.toNat (b ++ [slot]))

/-- Outer bucketing loop of `TileDataBarrierPrimitive::program`: reinterpret
each input, look up its tile array, and distribute its slots. -/
def barrierInputsLoop (p : TileDataBarrierParams) :
    List Tensor → Nat → List (List TensorSlot) →
    Except BuildError (List (List TensorSlot))
  | [], _, buckets => .ok buckets
  | input :: rest, idx, buckets => do
    let rt ← tileBarrierReinterpretTensor input
    let tiles ← oget (p.inputs_tiles.get? idx)
    let buckets' ← barrierTileLoop tiles rt (List.range tiles.length) buckets
    barrierInputsLoop p rest (idx + 1) buckets'

/-- Vertex-creation loop of `TileDataBarrierPrimitive::program`: one barrier
vertex per non-empty tile bucket, perf estimate 14, all bucket slots connected
to the `data` port. -/
def barrierVertexLoop (vname : String) :
    List (List TensorSlot) → Int → List Vertex
  | [], _ => []
  | b :: rest, tile =>
    if b.isEmpty then barrierVertexLoop vname rest (tile + 1)
    else ⟨vname, tile, some 14, [("data", b)], [], []⟩ :: barrierVertexLoop vname rest (tile + 1)

/-- `TileDataBarrierPrimitive::program`. -/
def TileDataBarrierPrimitive.program (g : Graph) (inputs : List Tensor)
    (p : TileDataBarrierParams) :
    Except BuildError (Graph × List Prog × List Tensor) :=
  if inputs.length < 1 then
    .error (.validation "IPU tile data barrier expecting multiple input tensors.")
  else do
    let buckets0 := List.replicate (p.max_tile + 1).toNat ([] : List TensorSlot)
    let buckets ← barrierInputsLoop p inputs 0 buckets0
    let csId := g.computeSets.length
    let vertices := barrierVertexLoop p.vname buckets 0
    let g' : Graph := { g with computeSets := g.computeSets ++ [vertices] }
    .ok (g', [Prog.execute csId], inputs)

/-- `VertexIOType`. -/
inductive VertexIOType where
  | In
  | Out
  | InOut
deriving DecidableEq

/-- `ShapedArray`. -/
structure ShapedArray where
  shape : List Nat
  dtype : IpuType
deriving DecidableEq

/-- `VertexIOInfo`: name, role, shaped value, connection rank. -/
structure VertexIOInfo where
  name : String
  iotype : VertexIOType
  aval : ShapedArray
  rank : Nat
deriving DecidableEq

/-- `VertexIOInfo::connectReshape`: rank 1 flattens the slice, rank 2 passes
it through, anything else is an error.  Flattening does not change which
storage slot is connected, so the slot is returned unchanged. -/
def VertexIOInfo.connectReshape (info : VertexIOInfo) (s : TensorSlot) :
    Except BuildError TensorSlot :=
  if info.rank = 1 then .ok s
  else if info.rank = 2 then .ok s
  else .error (.validation "IPU IO vertex tensor must of rank 1 or 2.")

/-- `VertexAttribute<T>`. -/
structure VertexAttribute (T : Type) where
  name : String
  value : T

/-- `TileMapEquation`. -/
structure TileMapEquation where
  pname : String
  vname : String
  tiles : List Int
  inputs_info : List VertexIOInfo
  outputs_info : List VertexIOInfo
  attributes_u32 : List (VertexAttribute Nat)
  attributes_f32 : List (VertexAttribute Float)
  gp_filename : String
  perf_estimate : Nat

/-- Output-allocation loop of `TileMapEquation::allocateOutputTensors`.  An
`InOut` output reuses the input at the index of the first name match
(`std::find_if`); no match makes the index `inputs_info.size()`, so the
subsequent `inputs.at(idx)` throws.  An `Out` output allocates a fresh sharded
tensor; any other role throws.  The error carries the graph mutated so far. -/
def allocLoop (e : TileMapEquation) (inputs : List Tensor) :
    List VertexIOInfo → Graph →
    Except (BuildError × Graph) (Graph × List Tensor)
  | [], g => .ok (g, [])
  | outinfo :: rest, g =>
    match outinfo.iotype with
    | .InOut =>
      let idx := (e.inputs_info.findIdx? (fun ininfo => ininfo.name = outinfo.name)).getD
        e.inputs_info.length
      match inputs.get? idx with
      | some t =>
        match allocLoop e inputs rest g with
        | .ok (g', outs) => .ok (g', t :: outs)
        | .error err => .error err
      | none => .error (.validation "vector::at: out of range", g)
    | .Out =>
      let (g1, t) := createShardedVariable g outinfo.aval.dtype outinfo.aval.shape e.tiles
      match allocLoop e inputs rest g1 with
      | .ok (g', outs) => .ok (g', t :: outs)
      | .error err => .error err
    | .In => .error (.validation "Unknown IO type for vertex output tensor.", g)

/-- `TileMapEquation::allocateOutputTensors`. -/
def TileMapEquation.allocateOutputTensors (e : TileMapEquation) (g : Graph)
    (inputs : List Tensor) : Except (BuildError × Graph) (Graph × List Tensor) :=
  if inputs.length ≠ e.inputs_info.length then
    .error (.validation "Inconsistent input vector size.", g)
  else allocLoop e inputs e.outputs_info g

/-- Input-connection loop of `TileMapEquation::add` for one vertex: connect
`inputs[k][tidx]` through `connectReshape` at port `inputs_info[k].name`. -/
def connectInputs (e : TileMapEquation) (inputs : List Tensor) (tidx : Nat) :
    List Nat → Except BuildError (List (String × List TensorSlot))
  | [] => .ok []
  | k :: rest => do
    let info ← oget (e.inputs_info.get? k)
    let input ← oget (inputs.get? k)
    let slot ← oget (input.slots.get? tidx)
    let rs ← info.connectReshape slot
    let conns ← connectInputs e inputs tidx rest
    .ok ((info.name, [rs]) :: conns)

/-- Output-connection loop of `TileMapEquation::add` for one vertex: only
plain `Out` ports are connected (`InOut` ports already carry the input's
storage). -/
def connectOutputs (e : TileMapEquation) (outputs : List Tensor) (tidx : Nat) :
    List Nat → Except BuildError (List (String × List TensorSlot))
  | [] => .ok []
  | k :: rest => do
    let info ← oget (e.outputs_info.get? k)
    let output ← oget (outputs.get? k)
    if info.iotype = VertexIOType.Out then do
      let slot ← oget (output.slots.get? tidx)
      let rs ← info.connectReshape slot
      let conns ← connectOutputs e outputs tidx rest
      .ok ((info.name, [rs]) :: conns)
    else
      connectOutputs e outputs tidx rest

/-- Build one vertex instance of `TileMapEquation::add` (the body of the
per-tile loop): vertex on `tiles[tidx]`, optional perf estimate, input and
output connections, static attributes. -/
def buildVertex (e : TileMapEquation) (inputs outputs : List Tensor)
    (tidx : Nat) : Except BuildError Vertex := do
  let tile ← oget (e.tiles.get? tidx)
  let inConns ← connectInputs e inputs tidx (List.range inputs.length)
  let outConns ← connectOutputs e outputs tidx (List.range outputs.length)
  .ok ⟨e.vname, tile, if e.perf_estimate > 0 then some e.perf_estimate else none,
       inConns ++ outConns,
       e.attributes_u32.map (fun a => (a.name, a.value)),
       e.attributes_f32.map (fun a => (a.name, a.value))⟩

/-- Per-tile loop of `TileMapEquation::add`: build and append one vertex per
tile.  On failure the error carries the graph as mutated so far (the compute
set and the vertices already added are not rolled back). -/
def addVertexLoop (e : TileMapEquation) (inputs outputs : List Tensor)
    (csId : Nat) : List Nat → Graph → Except (BuildError × Graph) Graph
  | [], g => .ok g
  | tidx :: rest, g =>
    match buildVertex e inputs outputs tidx with
    | .ok v => addVertexLoop e inputs outputs csId rest (g.appendVertex csId v)
    | .error err => .error (err, g)

/-- `TileMapEquation::add` (the overload taking allocated outputs): asserts
the input/output counts, opens one compute set, adds one vertex per tile and
schedules a single execution of the compute set. -/
def TileMapEquation.add (e : TileMapEquation) (g : Graph)
    (inputs outputs : List Tensor) :
    Except (BuildError × Graph) (Graph × List Prog) :=
  if inputs.length ≠ e.inputs_info.length then
    .error (.validation "Inconsistent inputs vector size.", g)
  else if outputs.length ≠ e.outputs_info.length then
    .error (.validation "Inconsistent outputs vector size.", g)
  else
    let (g1, csId) := g.addComputeSet
    match addVertexLoop e inputs outputs csId (List.range e.tiles.length) g1 with
    | .ok g2 => .ok (g2, [Prog.execute csId])
    | .error err => .error err

/-- `TileMapEquationCall::program`: allocate outputs, add the equation, return
the program and outputs. -/
def TileMapEquationCall.program (g : Graph) (inputs : List Tensor)
    (e : TileMapEquation) :
    Except (BuildError × Graph) (Graph × List Prog × List Tensor) :=
  match e.allocateOutputTensors g inputs with
  | .ok (g1, outs) =>
    match e.add g1 inputs outs with
    | .ok (g2, progs) => .ok (g2, progs, outs)
    | .error err => .error err
  | .error err => .error err

/-! ### Derived descriptions used to state and prove the properties -/

/-- The gather index `indices[idx]` read as a list position. -/
def gIdx (p : TileGatherParams) (idx : Nat) : Nat := (p.indices.getD idx 0).toNat

/-- The source tile `previous_tiles[indices[idx]]` of destination slot `idx`. -/
def srcTile (p : TileGatherParams) (idx : Nat) : Int :=
  p.previous_tiles.getD (gIdx p idx) 0

/-- The destination tile `tiles[idx]`. -/
def dstTile (p : TileGatherParams) (idx : Nat) : Int := p.tiles.getD idx 0

/-- Whether destination slot `idx` takes the copy path. -/
def needsCopy (p : TileGatherParams) (idx : Nat) : Bool :=
  decide (srcTile p idx ≠ dstTile p idx)

/-- The source slice `input[indices[idx]]`. -/
def srcSlot (input : Tensor) (p : TileGatherParams) (idx : Nat) : TensorSlot :=
  input.slots.getD (gIdx p idx) default

/-- All list accesses of the gather loop body are in bounds at `idx`. -/
def GatherIdxOk (input : Tensor) (p : TileGatherParams) (idx : Nat) : Prop :=
  idx < p.indices.length ∧ idx < p.tiles.length ∧
  0 ≤ p.indices.getD idx 0 ∧ gIdx p idx < input.slots.length ∧
  gIdx p idx < p.previous_tiles.length

instance (input : Tensor) (p : TileGatherParams) (idx : Nat) :
    Decidable (GatherIdxOk input p idx) := by
  unfold GatherIdxOk; infer_instance

/-- Closed form of the output slots produced by `gatherLoop`, with `m` the
number of graph variables allocated before the loop starts. -/
def gatherSlotsCF (input : Tensor) (p : TileGatherParams) :
    Nat → List Nat → List TensorSlot
  | _, [] => []
  | m, idx :: rest =>
    if needsCopy p idx then ⟨m, 0⟩ :: gatherSlotsCF input p (m + 1) rest
    else srcSlot input p idx :: gatherSlotsCF input p m rest

/-- Closed form of the copy program produced by `gatherLoop`. -/
def gatherProgsCF (input : Tensor) (p : TileGatherParams) :
    Nat → List Nat → List Prog
  | _, [] => []
  | m, idx :: rest =>
    if needsCopy p idx then
      Prog.copy (itemTensor input.dtype input.itemShape (srcSlot input p idx))
                (itemTensor input.dtype input.itemShape ⟨m, 0⟩)
        :: gatherProgsCF input p (m + 1) rest
    else gatherProgsCF input p m rest

/-- Closed form of the variables allocated by `gatherLoop`. -/
def gatherVarsCF (input : Tensor) (p : TileGatherParams) :
    List Nat → List GraphVar
  | [] => []
  | idx :: rest =>
    if needsCopy p idx then
      ⟨input.dtype, input.itemShape, 1, [dstTile p idx]⟩ :: gatherVarsCF input p rest
    else gatherVarsCF input p rest

/-- How many of the destination slots in `idxs` take the copy path. -/
def copiesAmong (p : TileGatherParams) (idxs : List Nat) : Nat :=
  (idxs.filter (fun i => needsCopy p i)).length

/-- Whether a program step is a copy whose destination is exactly the slot
`s`. -/
def Prog.isCopyTo (pr : Prog) (s : TensorSlot) : Bool :=
  match pr with
  | .copy _ d => decide (d.slots = [s])
  | .execute _ => false

/-- The contents of barrier bucket `t` contributed by the inputs from
position `idx` on: for each input in order, its slots `k` with
`inputs_tiles[idx][k] = t`, in slot order. -/
def bucketFrom (p : TileDataBarrierParams) (t : Int) :
    Nat → List Tensor → List TensorSlot
  | _, [] => []
  | idx, input :: rest =>
    ((List.range (p.inputs_tiles.getD idx []).length).filterMap fun k =>
      if (p.inputs_tiles.getD idx []).getD k 0 = t then
        some (input.slots.getD k default)
      else none)
    ++ bucketFrom p t (idx + 1) rest

/-- The full contents of barrier bucket `t`. -/
def bucketOf (p : TileDataBarrierParams) (inputs : List Tensor) (t : Int) :
    List TensorSlot :=
  bucketFrom p t 0 inputs

/-! ### Helper lemmas -/

theorem ebind_ok {α β : Type} (a : α) (f : α → Except BuildError β) :
    (Except.ok a >>= f) = f a := rfl

theorem get?_eq_some_getD {α : Type} (l : List α) (n : Nat) (d : α)
    (h : n < l.length) : l.get? n = some (l.getD n d) := by
  simp [List.get?_eq_getElem?, List.getD_eq_getElem?_getD, List.getElem?_eq_getElem h]

theorem set_concat_length {α : Type} (l : List α) (a b : α) :
    (l ++ [a]).set l.length b = l ++ [b] := by
  induction l with
  | nil => rfl
  | cons x xs ih => simp [List.set, ih]

theorem get?_concat_length' {α : Type} (l : List α) (a : α) :
    (l ++ [a]).get? l.length = some a := by
  induction l with
  | nil => rfl
  | cons x xs ih => simp [ih]

theorem getD_of_get?_eq_some {α : Type} {l : List α} {n : Nat} {x : α} (d : α)
    (h : l.get? n = some x) : l.getD n d = x := by
  simp [List.getD_eq_getElem?_getD, ← List.get?_eq_getElem?, h]

theorem addVariable_setTileMapping (g : Graph) (dt : IpuType) (sh : List Nat)
    (tile : Int) :
    (g.addVariable dt sh).1.setTileMapping (g.addVariable dt sh).2 tile =
      { g with vars := g.vars ++ [⟨dt, sh, 1, [tile]⟩] } := by
  simp [Graph.addVariable, Graph.setTileMapping, get?_concat_length',
    set_concat_length, List.replicate]

/-- The gather loop equals its closed form wherever all its accesses are in
bounds. -/
theorem gatherLoop_eq (input : Tensor) (p : TileGatherParams) :
    ∀ (idxs : List Nat) (g : Graph),
      (∀ idx ∈ idxs, GatherIdxOk input p idx) →
      gatherLoop input p idxs g =
        .ok ({ vars := g.vars ++ gatherVarsCF input p idxs,
               computeSets := g.computeSets },
             gatherProgsCF input p g.vars.length idxs,
             gatherSlotsCF input p g.vars.length idxs)
  | [], g, _ => by
    simp [gatherLoop, gatherVarsCF, gatherProgsCF, gatherSlotsCF]
  | idx :: rest, g, h => by
    obtain ⟨h1, h2, h3, h4, h5⟩ := h idx (List.mem_cons_self _ _)
    have hrest := fun i hi => h i (List.mem_cons_of_mem _ hi)
    have e1 : p.indices.get? idx = some (p.indices.getD idx 0) :=
      get?_eq_some_getD _ _ _ h1
    have e2 : intGet? input.slots (p.indices.getD idx 0) =
        some (srcSlot input p idx) := by
      simp only [intGet?, if_neg (not_lt.mpr h3)]
      exact get?_eq_some_getD _ _ _ h4
    have e3 : intGet? p.previous_tiles (p.indices.getD idx 0) =
        some (srcTile p idx) := by
      simp only [intGet?, if_neg (not_lt.mpr h3)]
      exact get?_eq_some_getD _ _ _ h5
    have e4 : p.tiles.get? idx = some (dstTile p idx) :=
      get?_eq_some_getD _ _ _ h2
    by_cases hc : srcTile p idx = dstTile p idx
    · have hnc : needsCopy p idx = false := by simp [needsCopy, hc]
      simp only [gatherLoop, e1, e2, e3, e4, oget, ebind_ok, if_pos hc,
        gatherLoop_eq input p rest g hrest, gatherVarsCF, gatherProgsCF,
        gatherSlotsCF, hnc, Bool.false_eq_true, if_false]
    · have hnc : needsCopy p idx = true := by simp [needsCopy, hc]
      have hg2 := addVariable_setTileMapping g input.dtype input.itemShape
        (dstTile p idx)
      simp only [gatherLoop, e1, e2, e3, e4, oget, ebind_ok, if_neg hc]
      rw [hg2]
      rw [gatherLoop_eq input p rest _ hrest]
      simp only [gatherVarsCF, gatherProgsCF, gatherSlotsCF, hnc,
        Graph.addVariable, List.append_assoc, if_true, List.length_append,
        List.length_cons, List.length_nil, List.singleton_append, ebind_ok]

theorem copiesAmong_nil (p : TileGatherParams) : copiesAmong p [] = 0 := rfl

theorem copiesAmong_cons (p : TileGatherParams) (idx : Nat) (l : List Nat) :
    copiesAmong p (idx :: l) =
      (if needsCopy p idx then 1 else 0) + copiesAmong p l := by
  by_cases h : needsCopy p idx <;>
    simp [copiesAmong, List.filter_cons, h, Nat.add_comm]

theorem gatherSlotsCF_length (input : Tensor) (p : TileGatherParams) :
    ∀ (idxs : List Nat) (m : Nat),
      (gatherSlotsCF input p m idxs).length = idxs.length
  | [], _ => rfl
  | idx :: rest, m => by
    by_cases h : needsCopy p idx <;>
      simp [gatherSlotsCF, h, gatherSlotsCF_length input p rest]

/-- The `j`-th output slot of the loop: the source slice on the zero-copy
path, the `copiesAmong`-th fresh variable on the copy path. -/
theorem gatherSlotsCF_get (input : Tensor) (p : TileGatherParams) :
    ∀ (idxs : List Nat) (m j : Nat), j < idxs.length →
      (gatherSlotsCF input p m idxs).get? j =
        some (if needsCopy p (idxs.getD j 0) then
                ⟨m + copiesAmong p (idxs.take j), 0⟩
              else srcSlot input p (idxs.getD j 0))
  | [], _, j, hj => absurd hj (by simp)
  | idx :: rest, m, 0, _ => by
    by_cases h : needsCopy p idx <;> simp [gatherSlotsCF, h, copiesAmong_nil]
  | idx :: rest, m, j + 1, hj => by
    have hj' : j < rest.length := by simpa using hj
    rw [List.getD_cons_succ, List.take_succ_cons]
    by_cases h : needsCopy p idx
    · rw [gatherSlotsCF, if_pos h, List.get?_cons_succ,
        gatherSlotsCF_get input p rest (m + 1) j hj', copiesAmong_cons,
        if_pos h, ← Nat.add_assoc]
    · rw [gatherSlotsCF, if_neg h, List.get?_cons_succ,
        gatherSlotsCF_get input p rest m j hj', copiesAmong_cons,
        if_neg h, Nat.zero_add]

/-- Every step the loop emits is a copy into a fresh variable (index at least
`m`), with a one-slot source and a one-slot destination. -/
theorem gatherProgsCF_mem (input : Tensor) (p : TileGatherParams) :
    ∀ (idxs : List Nat) (m : Nat) (pr : Prog),
      pr ∈ gatherProgsCF input p m idxs →
      ∃ a v, m ≤ v ∧
        pr = Prog.copy (itemTensor input.dtype input.itemShape a)
                       (itemTensor input.dtype input.itemShape ⟨v, 0⟩)
  | [], _, pr, h => absurd h (by simp [gatherProgsCF])
  | idx :: rest, m, pr, h => by
    by_cases hc : needsCopy p idx
    · rw [gatherProgsCF, if_pos hc] at h
      rcases List.mem_cons.mp h with h0 | h1
      · exact ⟨srcSlot input p idx, m, le_refl m, h0⟩
      · obtain ⟨a, v, hv, he⟩ := gatherProgsCF_mem input p rest (m + 1) pr h1
        exact ⟨a, v, le_trans (Nat.le_succ m) hv, he⟩
    · rw [gatherProgsCF, if_neg hc] at h
      exact gatherProgsCF_mem input p rest m pr h

/-- On the copy path for slot `j` the program holds exactly one copy into the
slot's fresh variable, and it reads the source slice. -/
theorem gatherProgsCF_filter (input : Tensor) (p : TileGatherParams) :
    ∀ (idxs : List Nat) (m j : Nat), j < idxs.length →
      needsCopy p (idxs.getD j 0) = true →
      (gatherProgsCF input p m idxs).filter
          (fun pr => pr.isCopyTo ⟨m + copiesAmong p (idxs.take j), 0⟩) =
        [Prog.copy (itemTensor input.dtype input.itemShape
                      (srcSlot input p (idxs.getD j 0)))
                   (itemTensor input.dtype input.itemShape
                      ⟨m + copiesAmong p (idxs.take j), 0⟩)]
  | [], _, j, hj, _ => absurd hj (by simp)
  | idx :: rest, m, 0, _, hcopy => by
    have hc : needsCopy p idx := by simpa using hcopy
    rw [gatherProgsCF, if_pos hc]
    have hhead : (Prog.copy (itemTensor input.dtype input.itemShape (srcSlot input p idx))
        (itemTensor input.dtype input.itemShape ⟨m, 0⟩)).isCopyTo
          ⟨m + copiesAmong p (List.take 0 (idx :: rest)), 0⟩ = true := by
      simp [Prog.isCopyTo, itemTensor, copiesAmong_nil]
    have htail : ∀ pr ∈ gatherProgsCF input p (m + 1) rest,
        ¬ (pr.isCopyTo ⟨m + copiesAmong p (List.take 0 (idx :: rest)), 0⟩ = true) := by
      intro pr hpr
      obtain ⟨a, v, hv, he⟩ := gatherProgsCF_mem input p rest (m + 1) pr hpr
      subst he
      simp only [Prog.isCopyTo, itemTensor, List.take_zero, copiesAmong_nil,
        Nat.add_zero, decide_eq_true_eq]
      intro hcontra
      have hvm : v = m := by
        have h1 := (List.cons_eq_cons.mp hcontra).1
        exact congrArg TensorSlot.var h1
      omega
    rw [List.filter_cons, if_pos hhead, List.filter_eq_nil_iff.mpr htail]
    simp [copiesAmong_nil]
  | idx :: rest, m, j + 1, hj, hcopy => by
    have hj' : j < rest.length := by simpa using hj
    have hcopy' : needsCopy p (rest.getD j 0) = true := by simpa using hcopy
    rw [List.getD_cons_succ, List.take_succ_cons] at *
    by_cases hc : needsCopy p idx
    · rw [gatherProgsCF, if_pos hc]
      have htarget : m + copiesAmong p (idx :: rest.take j) =
          (m + 1) + copiesAmong p (rest.take j) := by
        rw [copiesAmong_cons, if_pos hc]
        omega
      have hhead : (Prog.copy (itemTensor input.dtype input.itemShape (srcSlot input p idx))
          (itemTensor input.dtype input.itemShape ⟨m, 0⟩)).isCopyTo
            ⟨m + copiesAmong p (idx :: rest.take j), 0⟩ = false := by
        simp only [Prog.isCopyTo, itemTensor, htarget, decide_eq_false_iff_not]
        intro hcontra
        have hvm : m = m + 1 + copiesAmong p (rest.take j) := by
          have h1 := (List.cons_eq_cons.mp hcontra).1
          exact congrArg TensorSlot.var h1
        omega
      rw [List.filter_cons, if_neg (by simp [hhead]), htarget]
      exact gatherProgsCF_filter input p rest (m + 1) j hj' hcopy'
    · rw [gatherProgsCF, if_neg hc]
      have htarget : m + copiesAmong p (idx :: rest.take j) =
          m + copiesAmong p (rest.take j) := by
        rw [copiesAmong_cons, if_neg hc]
        omega
      rw [htarget]
      exact gatherProgsCF_filter input p rest m j hj' hcopy'

/-- The fresh variable allocated for copy-path slot `j` is mapped to the
destination tile. -/
theorem gatherVarsCF_get (input : Tensor) (p : TileGatherParams) :
    ∀ (idxs : List Nat) (j : Nat), j < idxs.length →
      needsCopy p (idxs.getD j 0) = true →
      (gatherVarsCF input p idxs).get? (copiesAmong p (idxs.take j)) =
        some ⟨input.dtype, input.itemShape, 1, [dstTile p (idxs.getD j 0)]⟩
  | [], j, hj, _ => absurd hj (by simp)
  | idx :: rest, 0, _, hcopy => by
    have hc : needsCopy p idx := by simpa using hcopy
    simp [gatherVarsCF, hc, copiesAmong_nil]
  | idx :: rest, j + 1, hj, hcopy => by
    have hj' : j < rest.length := by simpa using hj
    have hcopy' : needsCopy p (rest.getD j 0) = true := by simpa using hcopy
    rw [List.getD_cons_succ, List.take_succ_cons]
    by_cases hc : needsCopy p idx
    · rw [gatherVarsCF, if_pos hc, copiesAmong_cons, if_pos hc,
        Nat.add_comm 1 (copiesAmong p (rest.take j)), List.get?_cons_succ]
      exact gatherVarsCF_get input p rest j hj' hcopy'
    · rw [gatherVarsCF, if_neg hc, copiesAmong_cons, if_neg hc, Nat.zero_add]
      exact gatherVarsCF_get input p rest j hj' hcopy'

theorem applyCopy_item (dt : IpuType) (sh : List Nat) (a d : TensorSlot)
    (s : Store) :
    applyCopy (itemTensor dt sh a) (itemTensor dt sh d) s =
      storeSet s d (readSlot s a) := rfl

theorem storeSet_read_same (s : Store) (d : TensorSlot) (val : Int) :
    readSlot (storeSet s d val) d = val := by
  simp [readSlot, storeSet]

theorem storeSet_read_ne (s : Store) (d : TensorSlot) (val : Int) (v i : Nat)
    (h : v ≠ d.var) : storeSet s d val v i = s v i := by
  simp only [storeSet]
  exact if_neg (fun hc => h hc.1)

theorem getD_mem {α : Type} {l : List α} {n : Nat} (d : α) (h : n < l.length) :
    l.getD n d ∈ l :=
  List.get?_mem (get?_eq_some_getD l n d h)

theorem get?_append_right' {α : Type} (l₁ l₂ : List α) (i : Nat) :
    (l₁ ++ l₂).get? (l₁.length + i) = l₂.get? i := by
  induction l₁ with
  | nil => simp
  | cons x xs ih => simpa [Nat.succ_add] using ih

/-- Copies into variables at or above `m` leave every slot of a variable below
`m` unchanged. -/
theorem gatherProgsCF_untouched (input : Tensor) (p : TileGatherParams) :
    ∀ (idxs : List Nat) (m : Nat) (s : Store) (v i : Nat), v < m →
      runProg (gatherProgsCF input p m idxs) s v i = s v i
  | [], _, _, _, _, _ => rfl
  | idx :: rest, m, s, v, i, hv => by
    by_cases hc : needsCopy p idx
    · rw [gatherProgsCF, if_pos hc, runProg,
        gatherProgsCF_untouched input p rest (m + 1) _ v i (Nat.lt_succ_of_lt hv)]
      show storeSet s ⟨m, 0⟩ (readSlot s (srcSlot input p idx)) v i = s v i
      exact storeSet_read_ne s ⟨m, 0⟩ _ v i (Nat.ne_of_lt hv)
    · rw [gatherProgsCF, if_neg hc]
      exact gatherProgsCF_untouched input p rest m s v i hv

/-- Running the emitted copies, the `j`-th output slot holds the initial value
of the source slice `input[indices[j]]`, on both paths. -/
theorem gatherProgsCF_run (input : Tensor) (p : TileGatherParams) :
    ∀ (idxs : List Nat) (m : Nat) (s : Store),
      (∀ sl ∈ input.slots, sl.var < m) →
      ∀ j, j < idxs.length → gIdx p (idxs.getD j 0) < input.slots.length →
      readSlot (runProg (gatherProgsCF input p m idxs) s)
          ((gatherSlotsCF input p m idxs).getD j default) =
        readSlot s (srcSlot input p (idxs.getD j 0))
  | [], _, _, _, j, hj, _ => absurd hj (by simp)
  | idx :: rest, m, s, hm, 0, _, hg => by
    rw [List.getD_cons_zero] at *
    by_cases hc : needsCopy p idx
    · rw [gatherProgsCF, if_pos hc, gatherSlotsCF, if_pos hc,
        List.getD_cons_zero, runProg]
      have hrun := gatherProgsCF_untouched input p rest (m + 1)
        (applyProg (Prog.copy (itemTensor input.dtype input.itemShape (srcSlot input p idx))
          (itemTensor input.dtype input.itemShape ⟨m, 0⟩)) s) m 0 (Nat.lt_succ_self m)
      rw [readSlot, hrun]
      show readSlot (storeSet s ⟨m, 0⟩ (readSlot s (srcSlot input p idx))) ⟨m, 0⟩ = _
      exact storeSet_read_same s ⟨m, 0⟩ _
    · rw [gatherProgsCF, if_neg hc, gatherSlotsCF, if_neg hc,
        List.getD_cons_zero]
      have hvar : (srcSlot input p idx).var < m :=
        hm _ (getD_mem default hg)
      rw [readSlot]
      exact gatherProgsCF_untouched input p rest m s _ _ hvar
  | idx :: rest, m, s, hm, j + 1, hj, hg => by
    have hj' : j < rest.length := by simpa using hj
    rw [List.getD_cons_succ] at *
    by_cases hc : needsCopy p idx
    · rw [gatherProgsCF, if_pos hc, gatherSlotsCF, if_pos hc,
        List.getD_cons_succ, runProg]
      have hm' : ∀ sl ∈ input.slots, sl.var < m + 1 :=
        fun sl hsl => Nat.lt_succ_of_lt (hm sl hsl)
      rw [gatherProgsCF_run input p rest (m + 1) _ hm' j hj' hg]
      have hvar : (srcSlot input p (rest.getD j 0)).var < m :=
        hm _ (getD_mem default hg)
      show readSlot (storeSet s ⟨m, 0⟩ (readSlot s (srcSlot input p idx)))
        (srcSlot input p (rest.getD j 0)) = _
      rw [readSlot, storeSet_read_ne s ⟨m, 0⟩ _ _ _ (Nat.ne_of_lt hvar)]
      rfl
    · rw [gatherProgsCF, if_neg hc, gatherSlotsCF, if_neg hc,
        List.getD_cons_succ]
      exact gatherProgsCF_run input p rest m s hm j hj' hg

/-! ### C1: cross-tile gather copy elision -/

/-- C1: for every gather descriptor satisfying the descriptor invariants and
every destination slot `j`, if `previous_tiles[indices[j]] = new_tiles[j]` the
output slot aliases the source slice directly (no new variable, and no copy
step targets it); otherwise the output slot is fresh storage mapped to tile
`new_tiles[j]` and exactly one copy from the source slice to it is in the
program. -/
theorem gather_copy_elision (g : Graph) (input : Tensor) (p : TileGatherParams)
    (hwf : ∀ sl ∈ input.slots, sl.var < g.vars.length)
    (hcnt : p.indices.length = p.tiles.length)
    (hok : ∀ idx, idx < p.tiles.length → GatherIdxOk input p idx) :
    ∃ g' progs out,
      TileGatherPrimitive.program g [input] p = .ok (g', progs, out) ∧
      out.slots.length = p.tiles.length ∧
      ∀ j, j < p.tiles.length →
        (srcTile p j = dstTile p j →
          out.slots.getD j default = srcSlot input p j ∧
          (out.slots.getD j default).var < g.vars.length ∧
          ∀ pr ∈ progs, pr.isCopyTo (out.slots.getD j default) = false) ∧
        (srcTile p j ≠ dstTile p j →
          g.vars.length ≤ (out.slots.getD j default).var ∧
          g'.vars.get? (out.slots.getD j default).var =
            some ⟨input.dtype, input.itemShape, 1, [dstTile p j]⟩ ∧
          progs.filter (fun pr => pr.isCopyTo (out.slots.getD j default)) =
            [Prog.copy
              (itemTensor input.dtype input.itemShape (srcSlot input p j))
              (itemTensor input.dtype input.itemShape
                (out.slots.getD j default))]) := by
  have hidxs : ∀ idx ∈ List.range p.tiles.length, GatherIdxOk input p idx :=
    fun idx hidx => hok idx (List.mem_range.mp hidx)
  have hloop := gatherLoop_eq input p (List.range p.tiles.length) g hidxs
  refine ⟨⟨g.vars ++ gatherVarsCF input p (List.range p.tiles.length),
      g.computeSets⟩,
    gatherProgsCF input p g.vars.length (List.range p.tiles.length),
    ⟨input.dtype, input.itemShape,
      gatherSlotsCF input p g.vars.length (List.range p.tiles.length)⟩,
    ?_, ?_, ?_⟩
  · simp only [TileGatherPrimitive.program, hloop, ebind_ok]
  · simp [gatherSlotsCF_length]
  · intro j hj
    have hjn : j < (List.range p.tiles.length).length := by simpa using hj
    have hjr : (List.range p.tiles.length).getD j 0 = j :=
      getD_of_get?_eq_some 0 (List.get?_range hj)
    have htk : (List.range p.tiles.length).take j = List.range j := by
      rw [List.take_range, Nat.min_eq_left (le_of_lt hj)]
    have hget := gatherSlotsCF_get input p (List.range p.tiles.length)
      g.vars.length j hjn
    rw [hjr, htk] at hget
    have hgetD := getD_of_get?_eq_some default hget
    have hsrcmem : srcSlot input p j ∈ input.slots :=
      getD_mem default (hok j hj).2.2.2.1
    constructor
    · intro heq
      have hnc : needsCopy p j = false := by simp [needsCopy, heq]
      rw [hnc] at hgetD
      simp only [Bool.false_eq_true, if_false] at hgetD
      have hvar : (srcSlot input p j).var < g.vars.length := hwf _ hsrcmem
      refine ⟨hgetD, hgetD ▸ hvar, ?_⟩
      intro pr hpr
      obtain ⟨a, v, hv, he⟩ :=
        gatherProgsCF_mem input p (List.range p.tiles.length) g.vars.length pr hpr
      subst he
      rw [hgetD]
      simp only [Prog.isCopyTo, itemTensor, decide_eq_false_iff_not]
      intro hcontra
      have h1 := congrArg TensorSlot.var (List.cons_eq_cons.mp hcontra).1
      simp only at h1
      omega
    · intro hne
      have hnc : needsCopy p j = true := by simp [needsCopy, hne]
      rw [hnc] at hgetD
      simp only [if_true] at hgetD
      have hfil := gatherProgsCF_filter input p (List.range p.tiles.length)
        g.vars.length j hjn (by rw [hjr]; exact hnc)
      rw [hjr, htk] at hfil
      have hvars := gatherVarsCF_get input p (List.range p.tiles.length) j hjn
        (by rw [hjr]; exact hnc)
      rw [hjr, htk] at hvars
      refine ⟨hgetD ▸ Nat.le_add_right _ _, ?_, ?_⟩
      · rw [hgetD]
        show (g.vars ++ gatherVarsCF input p (List.range p.tiles.length)).get?
          (g.vars.length + copiesAmong p (List.range j)) = _
        rw [get?_append_right' g.vars _ (copiesAmong p (List.range j))]
        exact hvars
      · rw [hgetD]
        exact hfil

/-- C1 witness: the spec scenario `previous_tiles = [0,1,2]`,
`indices = [2,0,1]`, `new_tiles = [2,3,1]`. -/
theorem gather_copy_elision_witness :
    ∃ g' progs out,
      TileGatherPrimitive.program ⟨[⟨.float, [], 3, [0, 1, 2]⟩], []⟩
          [⟨.float, [], [⟨0, 0⟩, ⟨0, 1⟩, ⟨0, 2⟩]⟩]
          ⟨[0, 1, 2], [2, 0, 1], [2, 3, 1]⟩ = .ok (g', progs, out) := by
  obtain ⟨g', progs, out, h1, -, -⟩ :=
    gather_copy_elision ⟨[⟨.float, [], 3, [0, 1, 2]⟩], []⟩
      ⟨.float, [], [⟨0, 0⟩, ⟨0, 1⟩, ⟨0, 2⟩]⟩
      ⟨[0, 1, 2], [2, 0, 1], [2, 3, 1]⟩
      (by decide) (by decide) (by decide)
  exact ⟨g', progs, out, h1⟩

/-! ### C3: cross-tile gather value correctness -/

/-- C3: for every gather descriptor satisfying the descriptor invariants,
after running the emitted program from any initial store, output slot `j`
holds the initial value of `input[indices[j]]` — on both the zero-copy and
the copy path — and the output tensor is the ordered concatenation of the
per-slot slices along the leading axis. -/
theorem gather_value_correct (g : Graph) (input : Tensor) (p : TileGatherParams)
    (hwf : ∀ sl ∈ input.slots, sl.var < g.vars.length)
    (hcnt : p.indices.length = p.tiles.length)
    (hok : ∀ idx, idx < p.tiles.length → GatherIdxOk input p idx) :
    ∃ g' progs out,
      TileGatherPrimitive.program g [input] p = .ok (g', progs, out) ∧
      out = ⟨input.dtype, input.itemShape,
             gatherSlotsCF input p g.vars.length (List.range p.tiles.length)⟩ ∧
      out.slots.length = p.tiles.length ∧
      ∀ (s : Store) (j : Nat), j < p.tiles.length →
        readSlot (runProg progs s) (out.slots.getD j default) =
          readSlot s (srcSlot input p j) := by
  have hidxs : ∀ idx ∈ List.range p.tiles.length, GatherIdxOk input p idx :=
    fun idx hidx => hok idx (List.mem_range.mp hidx)
  have hloop := gatherLoop_eq input p (List.range p.tiles.length) g hidxs
  refine ⟨⟨g.vars ++ gatherVarsCF input p (List.range p.tiles.length),
      g.computeSets⟩,
    gatherProgsCF input p g.vars.length (List.range p.tiles.length),
    ⟨input.dtype, input.itemShape,
      gatherSlotsCF input p g.vars.length (List.range p.tiles.length)⟩,
    ?_, rfl, ?_, ?_⟩
  · simp only [TileGatherPrimitive.program, hloop, ebind_ok]
  · simp [gatherSlotsCF_length]
  · intro s j hj
    have hjn : j < (List.range p.tiles.length).length := by simpa using hj
    have hjr : (List.range p.tiles.length).getD j 0 = j :=
      getD_of_get?_eq_some 0 (List.get?_range hj)
    have hrun := gatherProgsCF_run input p (List.range p.tiles.length)
      g.vars.length s hwf j hjn (by rw [hjr]; exact (hok j hj).2.2.2.1)
    rw [hjr] at hrun
    exact hrun

/-- C3 witness: the spec scenario, with output values checked against an
explicit store. -/
theorem gather_value_correct_witness :
    ∃ g' progs out,
      TileGatherPrimitive.program ⟨[⟨.int, [], 3, [0, 1, 2]⟩], []⟩
          [⟨.int, [], [⟨0, 0⟩, ⟨0, 1⟩, ⟨0, 2⟩]⟩]
          ⟨[0, 1, 2], [2, 0, 1], [2, 3, 1]⟩ = .ok (g', progs, out) ∧
      ∀ (s : Store) (j : Nat),
        j < (⟨[0, 1, 2], [2, 0, 1], [2, 3, 1]⟩ : TileGatherParams).tiles.length →
        readSlot (runProg progs s) (out.slots.getD j default) =
          readSlot s (srcSlot ⟨.int, [], [⟨0, 0⟩, ⟨0, 1⟩, ⟨0, 2⟩]⟩
            ⟨[0, 1, 2], [2, 0, 1], [2, 3, 1]⟩ j) := by
  obtain ⟨g', progs, out, h1, -, -, h4⟩ :=
    gather_value_correct ⟨[⟨.int, [], 3, [0, 1, 2]⟩], []⟩
      ⟨.int, [], [⟨0, 0⟩, ⟨0, 1⟩, ⟨0, 2⟩]⟩
      ⟨[0, 1, 2], [2, 0, 1], [2, 3, 1]⟩
      (by decide) (by decide) (by decide)
  exact ⟨g', progs, out, h1, h4⟩

/-! ### C8: gather index-count validation -/

/-- C8 counterexample: a descriptor with `len(indices) = 2` but
`len(new_tiles) = 1` — violating the descriptor invariant — is accepted
without any error: the construction succeeds and simply ignores the extra
index. -/
theorem gather_count_validation_counterexample :
    (⟨[0], [0, 0], [0]⟩ : TileGatherParams).indices.length ≠
      (⟨[0], [0, 0], [0]⟩ : TileGatherParams).tiles.length ∧
    TileGatherPrimitive.program ⟨[⟨.float, [], 1, [0]⟩], []⟩
        [⟨.float, [], [⟨0, 0⟩]⟩] ⟨[0], [0, 0], [0]⟩ =
      .ok (⟨[⟨.float, [], 1, [0]⟩], []⟩, [], ⟨.float, [], [⟨0, 0⟩]⟩) :=
  ⟨by decide, rfl⟩

/-- C8 amended: the gather primitive performs no index-count validation.  A
descriptor with strictly more indices than destination tiles — violating the
invariant `len(indices) == len(new_tiles)` — is silently accepted whenever the
accesses actually used are in bounds; the extra indices are ignored, and no
construction-time error of any kind is raised. -/
theorem gather_count_mismatch_accepted (g : Graph) (input : Tensor)
    (p : TileGatherParams)
    (hmis : p.tiles.length < p.indices.length)
    (hok : ∀ idx, idx < p.tiles.length → GatherIdxOk input p idx) :
    ∃ r, TileGatherPrimitive.program g [input] p = .ok r := by
  have hidxs : ∀ idx ∈ List.range p.tiles.length, GatherIdxOk input p idx :=
    fun idx hidx => hok idx (List.mem_range.mp hidx)
  have hloop := gatherLoop_eq input p (List.range p.tiles.length) g hidxs
  refine ⟨(⟨g.vars ++ gatherVarsCF input p (List.range p.tiles.length),
      g.computeSets⟩,
    gatherProgsCF input p g.vars.length (List.range p.tiles.length),
    ⟨input.dtype, input.itemShape,
      gatherSlotsCF input p g.vars.length (List.range p.tiles.length)⟩), ?_⟩
  simp only [TileGatherPrimitive.program, hloop, ebind_ok]

/-- C8 amended witness: concrete mismatched descriptor accepted. -/
theorem gather_count_mismatch_accepted_witness :
    ∃ r, TileGatherPrimitive.program ⟨[⟨.float, [], 1, [5]⟩], []⟩
        [⟨.float, [], [⟨0, 0⟩]⟩] ⟨[5], [0, 0, 0], [7]⟩ = .ok r :=
  gather_count_mismatch_accepted ⟨[⟨.float, [], 1, [5]⟩], []⟩
    ⟨.float, [], [⟨0, 0⟩]⟩ ⟨[5], [0, 0, 0], [7]⟩ (by decide) (by decide)

/-! ### C7: sharded placement -/

theorem storeSet_read_ne_slot (s : Store) (d t : TensorSlot) (val : Int)
    (h : t ≠ d) : readSlot (storeSet s d val) t = readSlot s t := by
  simp only [readSlot, storeSet]
  refine if_neg (fun hc => h ?_)
  obtain ⟨h1, h2⟩ := hc
  cases t; cases d
  simp_all

/-- A bulk copy does not write slots that are not among its destinations. -/
theorem copyPairs_read_not_dst (s0 : Store) :
    ∀ (ps : List (TensorSlot × TensorSlot)) (acc : Store) (d : TensorSlot),
      (∀ pr ∈ ps, pr.2 ≠ d) →
      readSlot (copyPairs s0 ps acc) d = readSlot acc d
  | [], _, _, _ => rfl
  | (a0, d0) :: rest, acc, d, h => by
    rw [copyPairs, copyPairs_read_not_dst s0 rest _ d
      (fun pr hpr => h pr (List.mem_cons_of_mem _ hpr))]
    exact storeSet_read_ne_slot acc d0 d _
      (fun he => h (a0, d0) (List.mem_cons_self _ _) (he ▸ rfl) )

/-- With pairwise-distinct destinations, a bulk copy writes each destination
with the start-of-copy value of its paired source. -/
theorem copyPairs_read_dst (s0 : Store) :
    ∀ (ps : List (TensorSlot × TensorSlot)) (acc : Store) (a d : TensorSlot),
      (ps.map Prod.snd).Nodup → (a, d) ∈ ps →
      readSlot (copyPairs s0 ps acc) d = readSlot s0 a
  | [], _, _, _, _, hmem => absurd hmem (by simp)
  | (a0, d0) :: rest, acc, a, d, hnd, hmem => by
    rcases List.mem_cons.mp hmem with h0 | h1
    · have ha : a = a0 := congrArg Prod.fst h0
      have hd : d = d0 := congrArg Prod.snd h0
      subst ha; subst hd
      rw [copyPairs, copyPairs_read_not_dst s0 rest _ d ?hd]
      · exact storeSet_read_same acc d _
      · intro pr hpr he
        exact (List.nodup_cons.mp (by simpa using hnd)).1
          (he ▸ List.mem_map_of_mem Prod.snd hpr)
    · rw [copyPairs]
      exact copyPairs_read_dst s0 rest _ a d
        (List.nodup_cons.mp (by simpa using hnd)).2 h1

theorem zip_get?_eq {α β : Type} :
    ∀ (l₁ : List α) (l₂ : List β) (i : Nat) (x : α) (y : β),
      l₁.get? i = some x → l₂.get? i = some y →
      (l₁.zip l₂).get? i = some (x, y)
  | [], _, i, _, _, h, _ => by simp at h
  | _ :: _, [], i, _, _, _, h => by simp at h
  | a :: l₁, b :: l₂, 0, x, y, h1, h2 => by
    simp only [List.get?_cons_zero, Option.some.injEq] at h1 h2
    simp [List.zip_cons_cons, h1, h2]
  | a :: l₁, b :: l₂, i + 1, x, y, h1, h2 => by
    simp only [List.get?_cons_succ] at h1 h2
    simpa [List.zip_cons_cons] using zip_get?_eq l₁ l₂ i x y h1 h2

/-- C7: sharded placement allocates a fresh output (sharing no storage with
the input) with matching element type and leading-stripped per-partition
shape, partition `i` mapped to `tile_array[i]`, a single bulk copy emitted,
and after running it partition `i` holds the initial value of `input[i]`. -/
theorem sharded_placement_correct (g : Graph) (input : Tensor)
    (tile_array : List Int)
    (hwf : ∀ sl ∈ input.slots, sl.var < g.vars.length)
    (hlen : input.slots.length = tile_array.length) :
    ∃ g' out,
      TilePutShardedPrimitive.program g [input] tile_array =
        .ok (g', [Prog.copy input out], [out]) ∧
      out.dtype = input.dtype ∧
      out.itemShape = input.itemShape ∧
      out.slots.length = tile_array.length ∧
      (∀ i, i < tile_array.length → out.slots.get? i = some ⟨g.vars.length, i⟩) ∧
      (∀ sl ∈ out.slots, ∀ sl' ∈ input.slots, sl.var ≠ sl'.var) ∧
      g'.vars.get? g.vars.length =
        some ⟨input.dtype, input.itemShape, tile_array.length, tile_array⟩ ∧
      ∀ (s : Store) (i : Nat), i < tile_array.length →
        readSlot (runProg [Prog.copy input out] s) (out.slots.getD i default) =
          readSlot s (input.slots.getD i default) := by
  refine ⟨⟨g.vars ++ [⟨input.dtype, input.itemShape, tile_array.length, tile_array⟩],
      g.computeSets⟩,
    ⟨input.dtype, input.itemShape,
      (List.range tile_array.length).map (fun i => ⟨g.vars.length, i⟩)⟩,
    ?_, rfl, rfl, by simp, ?_, ?_, ?_, ?_⟩
  · simp [TilePutShardedPrimitive.program, hlen, createShardedVariable]
  · intro i hi
    rw [List.get?_map, List.get?_range hi, Option.map_some']
  · intro sl hsl sl' hsl'
    obtain ⟨i, -, hi⟩ := List.mem_map.mp hsl
    have hv : sl.var = g.vars.length := by rw [← hi]
    have := hwf sl' hsl'
    omega
  · exact get?_concat_length' g.vars _
  · intro s i hi
    have hin : input.slots.get? i = some (input.slots.getD i default) :=
      get?_eq_some_getD _ _ _ (hlen ▸ hi)
    have hout : ((List.range tile_array.length).map
        (fun j => (⟨g.vars.length, j⟩ : TensorSlot))).get? i =
          some ⟨g.vars.length, i⟩ := by
      rw [List.get?_map, List.get?_range hi, Option.map_some']
    have hzip := zip_get?_eq _ _ i _ _ hin hout
    have hmem := List.get?_mem hzip
    have hnd : ((input.slots.zip ((List.range tile_array.length).map
        (fun j => (⟨g.vars.length, j⟩ : TensorSlot)))).map Prod.snd).Nodup := by
      rw [List.map_snd_zip _ _ (by simp [hlen])]
      refine List.Nodup.map ?_ (List.nodup_range _)
      intro a b hab
      simpa using congrArg TensorSlot.idx hab
    have hgetD : ((List.range tile_array.length).map
        (fun j => (⟨g.vars.length, j⟩ : TensorSlot))).getD i default =
          ⟨g.vars.length, i⟩ := getD_of_get?_eq_some default hout
    rw [hgetD]
    show readSlot (copyPairs s (input.slots.zip _) s) _ = _
    exact copyPairs_read_dst s _ s _ _ hnd hmem

/-- C7 witness: the spec scenario — leading extent 4, tile array
`[2, 5, 0, 7]`. -/
theorem sharded_placement_correct_witness :
    ∃ g' out,
      TilePutShardedPrimitive.program ⟨[⟨.float, [2], 4, [0, 0, 0, 0]⟩], []⟩
          [⟨.float, [2], [⟨0, 0⟩, ⟨0, 1⟩, ⟨0, 2⟩, ⟨0, 3⟩]⟩] [2, 5, 0, 7] =
        .ok (g', [Prog.copy ⟨.float, [2], [⟨0, 0⟩, ⟨0, 1⟩, ⟨0, 2⟩, ⟨0, 3⟩]⟩ out],
             [out]) := by
  obtain ⟨g', out, h1, -, -, -, -, -, -, -⟩ :=
    sharded_placement_correct ⟨[⟨.float, [2], 4, [0, 0, 0, 0]⟩], []⟩
      ⟨.float, [2], [⟨0, 0⟩, ⟨0, 1⟩, ⟨0, 2⟩, ⟨0, 3⟩]⟩ [2, 5, 0, 7]
      (by decide) (by decide)
  exact ⟨g', out, h1⟩

/-! ### Barrier: helper lemmas -/

/-- The width-class table as the spec words it: 8-bit family to the 8-bit
unsigned integer, 16-bit family to the 16-bit one, 32-bit family to the 32-bit
one, nothing else supported. -/
def barrierReinterpretClass : IpuType → Option IpuType
  | .bool => some .unsigned_char
  | .char => some .unsigned_char
  | .signed_char => some .unsigned_char
  | .unsigned_char => some .unsigned_char
  | .short => some .unsigned_short
  | .unsigned_short => some .unsigned_short
  | .half => some .unsigned_short
  | .int => some .unsigned_int
  | .unsigned_int => some .unsigned_int
  | .float => some .unsigned_int
  | _ => none

/-- An element type the barrier supports. -/
def barrierSupported (ty : IpuType) : Bool := (barrierReinterpretClass ty).isSome

theorem reinterpretTensor_eq (t : Tensor) :
    tileBarrierReinterpretTensor t =
      match barrierReinterpretClass t.dtype with
      | some u => .ok ⟨u, t.itemShape, t.slots⟩
      | none =>
        .error (.validation "Unknown Poplar tensor type in tile data barrier.") := by
  obtain ⟨d, sh, sl⟩ := t
  cases d <;> rfl

theorem reinterpretTensor_of_supported (t : Tensor)
    (h : barrierSupported t.dtype = true) :
    ∃ u, tileBarrierReinterpretTensor t = .ok ⟨u, t.itemShape, t.slots⟩ := by
  rw [reinterpretTensor_eq]
  obtain ⟨u, hu⟩ := Option.isSome_iff_exists.mp h
  exact ⟨u, by rw [hu]⟩

theorem getD_set_self {α : Type} (l : List α) (i : Nat) (x d : α)
    (h : i < l.length) : (l.set i x).getD i d = x := by
  rw [List.getD_eq_getElem?_getD, List.getElem?_set_self h]
  rfl

theorem getD_set_ne {α : Type} (l : List α) (i j : Nat) (x d : α)
    (h : i ≠ j) : (l.set i x).getD j d = l.getD j d := by
  rw [List.getD_eq_getElem?_getD, List.getElem?_set_ne h,
    ← List.getD_eq_getElem?_getD]

theorem forall_mem_getD {α : Type} (l : List α) (d : α) (P : α → Prop) :
    (∀ x ∈ l, P x) ↔ (∀ k, k < l.length → P (l.getD k d)) := by
  constructor
  · intro h k hk
    exact h _ (getD_mem d hk)
  · intro h x hx
    obtain ⟨⟨n, hn⟩, he⟩ := List.mem_iff_get.mp hx
    have := h n hn
    rwa [getD_of_get?_eq_some d (List.get?_eq_get hn), he] at this

/-- Inner bucketing loop: success and resulting buckets whenever every access
is in bounds. -/
theorem barrierTileLoop_eq (tiles : List Int) (rt : Tensor) :
    ∀ (ks : List Nat) (buckets : List (List TensorSlot)),
      (∀ k ∈ ks, k < tiles.length ∧ k < rt.slots.length ∧
        0 ≤ tiles.getD k 0 ∧ (tiles.getD k 0).toNat < buckets.length) →
      ∃ buckets', barrierTileLoop tiles rt ks buckets = .ok buckets' ∧
        buckets'.length = buckets.length ∧
        ∀ t : Nat, t < buckets.length →
          buckets'.getD t [] = buckets.getD t [] ++
            (ks.filterMap fun k => if tiles.getD k 0 = (t : Int) then
              some (rt.slots.getD k default) else none)
  | [], buckets, _ => ⟨buckets, rfl, rfl, fun t _ => by simp⟩
  | k :: ks, buckets, h => by
    obtain ⟨hk1, hk2, hk3, hk4⟩ := h k (List.mem_cons_self _ _)
    have e1 : tiles.get? k = some (tiles.getD k 0) := get?_eq_some_getD _ _ _ hk1
    have e2 : rt.slots.get? k = some (rt.slots.getD k default) :=
      get?_eq_some_getD _ _ _ hk2
    have e3 : intGet? buckets (tiles.getD k 0) =
        some (buckets.getD (tiles.getD k 0).toNat []) := by
      rw [intGet?, if_neg (not_lt.mpr hk3)]
      exact get?_eq_some_getD _ _ _ hk4
    have hlen1 : (buckets.set (tiles.getD k 0).toNat
        (buckets.getD (tiles.getD k 0).toNat [] ++ [rt.slots.getD k default])).length
        = buckets.length := List.length_set ..
    obtain ⟨buckets', hb', hlen', hchar⟩ := barrierTileLoop_eq tiles rt ks
      (buckets.set (tiles.getD k 0).toNat
        (buckets.getD (tiles.getD k 0).toNat [] ++ [rt.slots.getD k default]))
      (fun k' hk' => by
        obtain ⟨a, b, c, d⟩ := h k' (List.mem_cons_of_mem _ hk')
        exact ⟨a, b, c, hlen1 ▸ d⟩)
    refine ⟨buckets', ?_, by rw [hlen', hlen1], ?_⟩
    · simp only [barrierTileLoop, e1, e2, e3, oget, ebind_ok]
      exact hb'
    · intro t ht
      rw [hchar t (hlen1 ▸ ht), List.filterMap_cons]
      by_cases he : tiles.getD k 0 = (t : Int)
      · have ht0t : (tiles.getD k 0).toNat = t := by rw [he]; simp
        rw [if_pos he, ht0t, getD_set_self buckets t _ [] (ht0t ▸ hk4)]
        simp
      · have ht0t : (tiles.getD k 0).toNat ≠ t := fun hc =>
          he (by rw [← hc, Int.toNat_of_nonneg hk3])
        rw [if_neg he, getD_set_ne buckets _ t _ [] ht0t]

/-- All `inputs_tiles` and bucket accesses of the bucketing loop are in
bounds, for the inputs from position `idx` on (`N` is the bucket count). -/
def BarrierAccessOkFrom (p : TileDataBarrierParams) (N idx : Nat)
    (ins : List Tensor) : Prop :=
  ∀ j, j < ins.length → idx + j < p.inputs_tiles.length ∧
    ∀ k, k < (p.inputs_tiles.getD (idx + j) []).length →
      0 ≤ (p.inputs_tiles.getD (idx + j) []).getD k 0 ∧
      ((p.inputs_tiles.getD (idx + j) []).getD k 0).toNat < N

/-- Each input has at least as many slots as its tile array entries (the
Poplar tensor indexing `in_reinterpret[k]` stays in range). -/
def BarrierSlotsOkFrom (p : TileDataBarrierParams) (idx : Nat)
    (ins : List Tensor) : Prop :=
  ∀ j, j < ins.length →
    (p.inputs_tiles.getD (idx + j) []).length ≤ (ins.getD j default).slots.length

/-- Outer bucketing loop: success and resulting buckets whenever every access
is in bounds and every element type is supported. -/
theorem barrierInputsLoop_eq (p : TileDataBarrierParams) :
    ∀ (ins : List Tensor) (idx : Nat) (buckets : List (List TensorSlot)),
      (∀ i ∈ ins, barrierSupported i.dtype = true) →
      BarrierSlotsOkFrom p idx ins →
      BarrierAccessOkFrom p buckets.length idx ins →
      ∃ buckets', barrierInputsLoop p ins idx buckets = .ok buckets' ∧
        buckets'.length = buckets.length ∧
        ∀ t : Nat, t < buckets.length →
          buckets'.getD t [] = buckets.getD t [] ++ bucketFrom p (t : Int) idx ins
  | [], idx, buckets, _, _, _ => ⟨buckets, rfl, rfl, fun t _ => by
      simp [bucketFrom]⟩
  | input :: rest, idx, buckets, hsup, hsl, hacc => by
    obtain ⟨u, hre⟩ := reinterpretTensor_of_supported input
      (hsup input (List.mem_cons_self _ _))
    obtain ⟨hidx0, hk0⟩ := hacc 0 (by simp)
    rw [Nat.add_zero] at hidx0 hk0
    have hsl0 := hsl 0 (by simp)
    rw [Nat.add_zero] at hsl0
    simp only [List.getD_cons_zero] at hsl0
    have e2 : p.inputs_tiles.get? idx = some (p.inputs_tiles.getD idx []) :=
      get?_eq_some_getD _ _ _ hidx0
    obtain ⟨buckets1, hb1, hlen1, hchar1⟩ :=
      barrierTileLoop_eq (p.inputs_tiles.getD idx [])
        ⟨u, input.itemShape, input.slots⟩
        (List.range (p.inputs_tiles.getD idx []).length) buckets
        (fun k hk => by
          have hkr := List.mem_range.mp hk
          obtain ⟨hnn, hlt⟩ := hk0 k hkr
          exact ⟨hkr, lt_of_lt_of_le hkr hsl0, hnn, hlt⟩)
    have hsup' : ∀ i ∈ rest, barrierSupported i.dtype = true :=
      fun i hi => hsup i (List.mem_cons_of_mem _ hi)
    have hsl' : BarrierSlotsOkFrom p (idx + 1) rest := by
      intro j hj
      have := hsl (j + 1) (by simpa using hj)
      have harith : idx + (j + 1) = idx + 1 + j := by omega
      rw [harith] at this
      simpa using this
    have hacc' : BarrierAccessOkFrom p buckets1.length (idx + 1) rest := by
      intro j hj
      have := hacc (j + 1) (by simpa using hj)
      have harith : idx + (j + 1) = idx + 1 + j := by omega
      rw [harith] at this
      exact ⟨this.1, fun k hk => ⟨(this.2 k hk).1, hlen1 ▸ (this.2 k hk).2⟩⟩
    obtain ⟨buckets', hb', hlen', hchar'⟩ :=
      barrierInputsLoop_eq p rest (idx + 1) buckets1 hsup' hsl' hacc'
    refine ⟨buckets', ?_, by rw [hlen', hlen1], ?_⟩
    · simp only [barrierInputsLoop, hre, e2, oget, ebind_ok, hb1]
      exact hb'
    · intro t ht
      rw [hchar' t (hlen1 ▸ ht), hchar1 t ht, bucketFrom, List.append_assoc]

/-- Every vertex the barrier creates sits on one of the `buckets.length`
considered tiles (counted from `t0`). -/
theorem barrierVertexLoop_mem (vname : String) :
    ∀ (buckets : List (List TensorSlot)) (t0 : Int) (v : Vertex),
      v ∈ barrierVertexLoop vname buckets t0 →
      ∃ t : Nat, t < buckets.length ∧ v.tile = t0 + t
  | [], _, v, h => absurd h (by simp [barrierVertexLoop])
  | b :: rest, t0, v, h => by
    by_cases hb : b.isEmpty
    · rw [barrierVertexLoop, if_pos hb] at h
      obtain ⟨t, ht, he⟩ := barrierVertexLoop_mem vname rest (t0 + 1) v h
      refine ⟨t + 1, by simpa using ht, ?_⟩
      rw [he]
      push_cast
      ring
    · rw [barrierVertexLoop, if_neg hb] at h
      rcases List.mem_cons.mp h with h0 | h1
      · exact ⟨0, by simp, by rw [h0]; simp⟩
      · obtain ⟨t, ht, he⟩ := barrierVertexLoop_mem vname rest (t0 + 1) v h1
        refine ⟨t + 1, by simpa using ht, ?_⟩
        rw [he]
        push_cast
        ring

/-- Bucket `t` yields exactly one vertex when non-empty — on tile `t`, perf
estimate 14, the whole bucket connected at port `data` — and none when
empty. -/
theorem barrierVertexLoop_filter (vname : String) :
    ∀ (buckets : List (List TensorSlot)) (t0 : Int) (t : Nat) (τ : Int),
      τ = t0 + t → t < buckets.length →
      (barrierVertexLoop vname buckets t0).filter
          (fun v => decide (v.tile = τ)) =
        (if (buckets.getD t []).isEmpty then []
         else [⟨vname, τ, some 14, [("data", buckets.getD t [])], [], []⟩])
  | [], _, t, _, _, ht => absurd ht (by simp)
  | b :: rest, t0, 0, τ, hτ, _ => by
    have hττ : τ = t0 := by omega
    simp only [hττ]
    by_cases hb : b.isEmpty
    · rw [barrierVertexLoop, if_pos hb, List.getD_cons_zero, if_pos hb]
      refine List.filter_eq_nil_iff.mpr ?_
      intro v hv
      obtain ⟨t, -, he⟩ := barrierVertexLoop_mem vname rest (t0 + 1) v hv
      simp only [decide_eq_true_eq]
      omega
    · rw [barrierVertexLoop, if_neg hb, List.getD_cons_zero, if_neg hb,
        List.filter_cons]
      have hhead : (decide ((⟨vname, t0, some 14, [("data", b)], [], []⟩ :
          Vertex).tile = t0)) = true := by simp
      rw [if_pos hhead]
      have htail : (barrierVertexLoop vname rest (t0 + 1)).filter
          (fun v => decide (v.tile = t0)) = [] := by
        refine List.filter_eq_nil_iff.mpr ?_
        intro v hv
        obtain ⟨t, -, he⟩ := barrierVertexLoop_mem vname rest (t0 + 1) v hv
        simp only [decide_eq_true_eq]
        omega
      rw [htail]
  | b :: rest, t0, t + 1, τ, hτ, ht => by
    have ht' : t < rest.length := by simpa using ht
    have hτ' : τ = (t0 + 1) + t := by push_cast at hτ ⊢; omega
    rw [List.getD_cons_succ]
    by_cases hb : b.isEmpty
    · rw [barrierVertexLoop, if_pos hb]
      exact barrierVertexLoop_filter vname rest (t0 + 1) t τ hτ' ht'
    · rw [barrierVertexLoop, if_neg hb, List.filter_cons]
      have hhead : (decide ((⟨vname, t0, some 14, [("data", b)], [], []⟩ :
          Vertex).tile = τ)) = false := by
        simp only [decide_eq_false_iff_not]
        show ¬ t0 = τ
        push_cast at hτ
        omega
      rw [if_neg (by simp [hhead])]
      exact barrierVertexLoop_filter vname rest (t0 + 1) t τ hτ' ht'

/-- Membership in a barrier bucket: exactly the slots whose tile-array entry
names that bucket. -/
theorem bucketFrom_mem (p : TileDataBarrierParams) :
    ∀ (ins : List Tensor) (idx : Nat) (t : Int) (s : TensorSlot),
      s ∈ bucketFrom p t idx ins ↔
        ∃ j, j < ins.length ∧
          ∃ k, k < (p.inputs_tiles.getD (idx + j) []).length ∧
            (p.inputs_tiles.getD (idx + j) []).getD k 0 = t ∧
            s = (ins.getD j default).slots.getD k default
  | [], idx, t, s => by simp [bucketFrom]
  | input :: rest, idx, t, s => by
    rw [bucketFrom, List.mem_append, List.mem_filterMap,
      bucketFrom_mem p rest (idx + 1) t s]
    constructor
    · rintro (⟨k, hk, he⟩ | ⟨j, hj, k, hk, he1, he2⟩)
      · have hkr := List.mem_range.mp hk
        by_cases hc : (p.inputs_tiles.getD idx []).getD k 0 = t
        · rw [if_pos hc, Option.some.injEq] at he
          exact ⟨0, by simp, k, by simpa using hkr, by simpa using hc,
            by simp [← he]⟩
        · rw [if_neg hc] at he
          exact absurd he (by simp)
      · refine ⟨j + 1, by simpa using hj, k, ?_, ?_, ?_⟩
        · rwa [show idx + (j + 1) = idx + 1 + j by omega]
        · rwa [show idx + (j + 1) = idx + 1 + j by omega]
        · rwa [List.getD_cons_succ]
    · rintro ⟨j, hj, k, hk, he1, he2⟩
      cases j with
      | zero =>
        left
        rw [Nat.add_zero] at hk he1
        refine ⟨k, List.mem_range.mpr hk, ?_⟩
        rw [if_pos he1, he2]
        simp
      | succ j =>
        right
        refine ⟨j, by simpa using hj, k, ?_, ?_, ?_⟩
        · rwa [show idx + 1 + j = idx + (j + 1) by omega]
        · rwa [show idx + 1 + j = idx + (j + 1) by omega]
        · rwa [List.getD_cons_succ] at he2

instance (p : TileDataBarrierParams) (N idx : Nat) (ins : List Tensor) :
    Decidable (BarrierAccessOkFrom p N idx ins) := by
  unfold BarrierAccessOkFrom; infer_instance

instance (p : TileDataBarrierParams) (idx : Nat) (ins : List Tensor) :
    Decidable (BarrierSlotsOkFrom p idx ins) := by
  unfold BarrierSlotsOkFrom; infer_instance

/-- The barrier program under its preconditions: outputs are the inputs, the
program is one execution of the single new compute set, and the compute set
holds the vertices built from the buckets. -/
theorem barrierProgram_eq (g : Graph) (inputs : List Tensor)
    (p : TileDataBarrierParams)
    (hne : inputs ≠ [])
    (hsup : ∀ i ∈ inputs, barrierSupported i.dtype = true)
    (hsl : BarrierSlotsOkFrom p 0 inputs)
    (hacc : BarrierAccessOkFrom p (p.max_tile + 1).toNat 0 inputs) :
    ∃ buckets',
      TileDataBarrierPrimitive.program g inputs p =
        .ok ({ g with computeSets :=
                g.computeSets ++ [barrierVertexLoop p.vname buckets' 0] },
             [Prog.execute g.computeSets.length], inputs) ∧
      buckets'.length = (p.max_tile + 1).toNat ∧
      ∀ t : Nat, t < (p.max_tile + 1).toNat →
        buckets'.getD t [] = bucketOf p inputs (t : Int) := by
  have hlen0 : (List.replicate (p.max_tile + 1).toNat
      ([] : List TensorSlot)).length = (p.max_tile + 1).toNat :=
    List.length_replicate ..
  obtain ⟨buckets', hb', hlen', hchar'⟩ := barrierInputsLoop_eq p inputs 0
    (List.replicate (p.max_tile + 1).toNat []) hsup hsl
    (by rw [hlen0]; exact hacc)
  have hnlt : ¬ inputs.length < 1 := by
    cases inputs with
    | nil => exact absurd rfl hne
    | cons a l => simp
  refine ⟨buckets', ?_, by rw [hlen', hlen0], ?_⟩
  · rw [TileDataBarrierPrimitive.program, if_neg hnlt]
    simp only [hb', ebind_ok]
  · intro t ht
    rw [hchar' t (by rw [hlen0]; exact ht), bucketOf]
    simp

/-! ### C2: data barrier identity -/

/-- C2: with at least one input, all element types in the supported width
classes, and the descriptor invariants holding, the barrier returns exactly
its input tensors (the output list is the input list, by storage identity),
emits no copy — a single compute-set execution only — and running the
program changes no stored value. -/
theorem barrier_identity (g : Graph) (inputs : List Tensor)
    (p : TileDataBarrierParams)
    (hne : inputs ≠ [])
    (hsup : ∀ i ∈ inputs, barrierSupported i.dtype = true)
    (hsl : BarrierSlotsOkFrom p 0 inputs)
    (hacc : BarrierAccessOkFrom p (p.max_tile + 1).toNat 0 inputs) :
    ∃ g', TileDataBarrierPrimitive.program g inputs p =
        .ok (g', [Prog.execute g.computeSets.length], inputs) ∧
      ∀ s : Store, runProg [Prog.execute g.computeSets.length] s = s := by
  obtain ⟨buckets', hprog, -, -⟩ := barrierProgram_eq g inputs p hne hsup hsl hacc
  exact ⟨_, hprog, fun s => rfl⟩

/-- C2 witness: two inputs, 8-bit and 32-bit, tiles `[0,1]` and `[1,2]`,
`max_tile = 2`. -/
theorem barrier_identity_witness :
    ∃ g', TileDataBarrierPrimitive.program ⟨[], []⟩
        [⟨.bool, [], [⟨0, 0⟩, ⟨0, 1⟩]⟩, ⟨.float, [], [⟨1, 0⟩, ⟨1, 1⟩]⟩]
        ⟨"BarrierVertex", [[0, 1], [1, 2]], 2⟩ =
      .ok (g', [Prog.execute 0],
           [⟨.bool, [], [⟨0, 0⟩, ⟨0, 1⟩]⟩, ⟨.float, [], [⟨1, 0⟩, ⟨1, 1⟩]⟩]) := by
  obtain ⟨g', h1, -⟩ := barrier_identity ⟨[], []⟩
    [⟨.bool, [], [⟨0, 0⟩, ⟨0, 1⟩]⟩, ⟨.float, [], [⟨1, 0⟩, ⟨1, 1⟩]⟩]
    ⟨"BarrierVertex", [[0, 1], [1, 2]], 2⟩
    (by decide) (by decide) (by decide) (by decide)
  exact ⟨g', h1⟩

/-! ### C5: barrier type reinterpretation -/

/-- C5: the reinterpretation maps the 8-bit family (bool, char, signed char,
unsigned char) to the 8-bit unsigned type, the 16-bit family (short, unsigned
short, half) to the 16-bit unsigned type, the 32-bit family (int, unsigned
int, float) to the 32-bit unsigned type — preserving shape and storage — and
fails with the unsupported-type error on every other element type, including
all 64-bit types. -/
theorem barrier_reinterpret_table (t : Tensor) :
    tileBarrierReinterpretTensor t =
      match barrierReinterpretClass t.dtype with
      | some u => .ok ⟨u, t.itemShape, t.slots⟩
      | none =>
        .error (.validation "Unknown Poplar tensor type in tile data barrier.") :=
  reinterpretTensor_eq t

/-! ### C6: barrier tile bucketing -/

/-- C6: exactly `max_tile + 1` tile buckets are considered; each input slot
`(j, k)` lands in the bucket of tile `inputs_tiles[j][k]` and in no other
bucket; every non-empty bucket yields exactly one barrier vertex on that tile
with the whole bucket connected at its `data` port; empty buckets yield no
vertex; and all vertices sit in the single new compute set, executed exactly
once. -/
theorem barrier_bucketing (g : Graph) (inputs : List Tensor)
    (p : TileDataBarrierParams)
    (hne : inputs ≠ [])
    (hsup : ∀ i ∈ inputs, barrierSupported i.dtype = true)
    (hsl : BarrierSlotsOkFrom p 0 inputs)
    (hacc : BarrierAccessOkFrom p (p.max_tile + 1).toNat 0 inputs)
    (hdist : ∀ j, j < inputs.length →
      ∀ k, k < (p.inputs_tiles.getD j []).length →
      ∀ j', j' < inputs.length →
      ∀ k', k' < (p.inputs_tiles.getD j' []).length →
      (inputs.getD j default).slots.getD k default =
        (inputs.getD j' default).slots.getD k' default → j = j' ∧ k = k') :
    ∃ vs g',
      TileDataBarrierPrimitive.program g inputs p =
        .ok (g', [Prog.execute g.computeSets.length], inputs) ∧
      g'.computeSets = g.computeSets ++ [vs] ∧
      (∀ v ∈ vs, ∃ t : Nat, t < (p.max_tile + 1).toNat ∧ v.tile = (t : Int)) ∧
      (∀ t : Nat, t < (p.max_tile + 1).toNat →
        vs.filter (fun v => decide (v.tile = (t : Int))) =
          if (bucketOf p inputs (t : Int)).isEmpty then []
          else [⟨p.vname, (t : Int), some 14,
                 [("data", bucketOf p inputs (t : Int))], [], []⟩]) ∧
      (∀ j k, j < inputs.length → k < (p.inputs_tiles.getD j []).length →
        ((inputs.getD j default).slots.getD k default ∈
            bucketOf p inputs ((p.inputs_tiles.getD j []).getD k 0) ∧
          ∀ t : Int, t ≠ (p.inputs_tiles.getD j []).getD k 0 →
            (inputs.getD j default).slots.getD k default ∉
              bucketOf p inputs t)) := by
  obtain ⟨buckets', hprog, hlen', hchar'⟩ :=
    barrierProgram_eq g inputs p hne hsup hsl hacc
  refine ⟨barrierVertexLoop p.vname buckets' 0, _, hprog, rfl, ?_, ?_, ?_⟩
  · intro v hv
    obtain ⟨t, ht, he⟩ := barrierVertexLoop_mem p.vname buckets' 0 v hv
    exact ⟨t, hlen' ▸ ht, by rw [he]; omega⟩
  · intro t ht
    rw [barrierVertexLoop_filter p.vname buckets' 0 t (t : Int) (by omega)
      (by rw [hlen']; exact ht), hchar' t ht]
  · intro j k hj hk
    constructor
    · rw [bucketOf, bucketFrom_mem]
      exact ⟨j, hj, k, by simpa using hk, by simp, by simp⟩
    · intro t hne' hmem
      rw [bucketOf, bucketFrom_mem] at hmem
      obtain ⟨j', hj', k', hk', he1, he2⟩ := hmem
      rw [Nat.zero_add] at hk' he1
      obtain ⟨hjj, hkk⟩ := hdist j hj k hk j' hj' k' hk' he2
      rw [← hjj, ← hkk] at he1
      exact hne' he1.symm

set_option synthInstance.maxSize 2000 in
set_option maxRecDepth 4000 in
/-- C6 witness: the spec scenario — 8-bit input on tiles `[0,1]`, 32-bit
input on tiles `[1,2]`, `max_tile = 2`: three buckets, tile 1 shared. -/
theorem barrier_bucketing_witness :
    ∃ vs g',
      TileDataBarrierPrimitive.program ⟨[], []⟩
          [⟨.bool, [], [⟨0, 0⟩, ⟨0, 1⟩]⟩, ⟨.float, [], [⟨1, 0⟩, ⟨1, 1⟩]⟩]
          ⟨"BarrierVertex", [[0, 1], [1, 2]], 2⟩ =
        .ok (g', [Prog.execute 0],
             [⟨.bool, [], [⟨0, 0⟩, ⟨0, 1⟩]⟩, ⟨.float, [], [⟨1, 0⟩, ⟨1, 1⟩]⟩]) ∧
      g'.computeSets = [vs] := by
  obtain ⟨vs, g', h1, h2, -, -, -⟩ := barrier_bucketing ⟨[], []⟩
    [⟨.bool, [], [⟨0, 0⟩, ⟨0, 1⟩]⟩, ⟨.float, [], [⟨1, 0⟩, ⟨1, 1⟩]⟩]
    ⟨"BarrierVertex", [[0, 1], [1, 2]], 2⟩
    (by decide) (by decide) (by decide) (by decide) (by decide)
  exact ⟨vs, g', h1, h2⟩

/-! ### C10: barrier bucketing preconditions are unchecked -/

theorem ebind_err {α β : Type} (e : BuildError)
    (f : α → Except BuildError β) : (Except.error e >>= f) = .error e := rfl

/-- When some bucket index is out of range, the inner loop dies with the
out-of-bounds access, not with a validation error. -/
theorem barrierTileLoop_err (tiles : List Int) (rt : Tensor) :
    ∀ (ks : List Nat) (buckets : List (List TensorSlot)),
      (∀ k ∈ ks, k < tiles.length ∧ k < rt.slots.length) →
      (∃ k ∈ ks, ¬(0 ≤ tiles.getD k 0 ∧
        (tiles.getD k 0).toNat < buckets.length)) →
      barrierTileLoop tiles rt ks buckets = .error .oobAccess
  | [], _, _, hex => absurd hex (by simp)
  | k :: ks, buckets, h, hex => by
    obtain ⟨hk1, hk2⟩ := h k (List.mem_cons_self _ _)
    have e1 : tiles.get? k = some (tiles.getD k 0) := get?_eq_some_getD _ _ _ hk1
    have e2 : rt.slots.get? k = some (rt.slots.getD k default) :=
      get?_eq_some_getD _ _ _ hk2
    by_cases hgood : 0 ≤ tiles.getD k 0 ∧ (tiles.getD k 0).toNat < buckets.length
    · have e3 : intGet? buckets (tiles.getD k 0) =
          some (buckets.getD (tiles.getD k 0).toNat []) := by
        rw [intGet?, if_neg (not_lt.mpr hgood.1)]
        exact get?_eq_some_getD _ _ _ hgood.2
      simp only [barrierTileLoop, e1, e2, e3, oget, ebind_ok]
      obtain ⟨k0, hk0mem, hk0bad⟩ := hex
      rcases List.mem_cons.mp hk0mem with h0 | h1
      · exact absurd hgood (h0 ▸ hk0bad)
      · refine barrierTileLoop_err tiles rt ks _
          (fun k' hk' => h k' (List.mem_cons_of_mem _ hk')) ⟨k0, h1, ?_⟩
        rwa [List.length_set]
    · have e3 : intGet? buckets (tiles.getD k 0) = none := by
        rw [intGet?]
        by_cases hneg : tiles.getD k 0 < 0
        · rw [if_pos hneg]
        · rw [if_neg hneg]
          refine List.get?_eq_none.mpr ?_
          push_neg at hgood
          exact hgood (not_lt.mp hneg)
      simp only [barrierTileLoop, e1, e2, e3, oget, ebind_ok, ebind_err]

/-- When the unchecked preconditions fail, the outer loop dies with the
out-of-bounds access, never with a validation error. -/
theorem barrierInputsLoop_err (p : TileDataBarrierParams) :
    ∀ (ins : List Tensor) (idx : Nat) (buckets : List (List TensorSlot)),
      (∀ i ∈ ins, barrierSupported i.dtype = true) →
      BarrierSlotsOkFrom p idx ins →
      ¬ BarrierAccessOkFrom p buckets.length idx ins →
      barrierInputsLoop p ins idx buckets = .error .oobAccess
  | [], idx, buckets, _, _, hn =>
    absurd (fun j hj => absurd hj (by simp)) hn
  | input :: rest, idx, buckets, hsup, hsl, hn => by
    obtain ⟨u, hre⟩ := reinterpretTensor_of_supported input
      (hsup input (List.mem_cons_self _ _))
    have hsl0 := hsl 0 (by simp)
    rw [Nat.add_zero] at hsl0
    simp only [List.getD_cons_zero] at hsl0
    by_cases hhead : idx < p.inputs_tiles.length ∧
        ∀ k, k < (p.inputs_tiles.getD idx []).length →
          0 ≤ (p.inputs_tiles.getD idx []).getD k 0 ∧
          ((p.inputs_tiles.getD idx []).getD k 0).toNat < buckets.length
    · have e2 : p.inputs_tiles.get? idx = some (p.inputs_tiles.getD idx []) :=
        get?_eq_some_getD _ _ _ hhead.1
      obtain ⟨buckets1, hb1, hlen1, -⟩ :=
        barrierTileLoop_eq (p.inputs_tiles.getD idx [])
          ⟨u, input.itemShape, input.slots⟩
          (List.range (p.inputs_tiles.getD idx []).length) buckets
          (fun k hk => by
            have hkr := List.mem_range.mp hk
            obtain ⟨hnn, hlt⟩ := hhead.2 k hkr
            exact ⟨hkr, lt_of_lt_of_le hkr hsl0, hnn, hlt⟩)
      have hsl' : BarrierSlotsOkFrom p (idx + 1) rest := by
        intro j hj
        have := hsl (j + 1) (by simpa using hj)
        rw [show idx + (j + 1) = idx + 1 + j by omega] at this
        simpa using this
      have hn' : ¬ BarrierAccessOkFrom p buckets1.length (idx + 1) rest := by
        intro hgood
        refine hn (fun j hj => ?_)
        cases j with
        | zero => exact ⟨by rw [Nat.add_zero]; exact hhead.1,
            by rw [Nat.add_zero]; exact hhead.2⟩
        | succ j =>
          have := hgood j (by simpa using hj)
          rw [show idx + 1 + j = idx + (j + 1) by omega] at this
          exact ⟨this.1, fun k hk =>
            ⟨(this.2 k hk).1, by rw [← hlen1]; exact (this.2 k hk).2⟩⟩
      simp only [barrierInputsLoop, hre, e2, oget, ebind_ok, hb1]
      exact barrierInputsLoop_err p rest (idx + 1) buckets1
        (fun i hi => hsup i (List.mem_cons_of_mem _ hi)) hsl' hn'
    · push_neg at hhead
      by_cases hidx : idx < p.inputs_tiles.length
      · obtain ⟨k0, hk0, hbad⟩ := hhead hidx
        have e2 : p.inputs_tiles.get? idx = some (p.inputs_tiles.getD idx []) :=
          get?_eq_some_getD _ _ _ hidx
        have herr := barrierTileLoop_err (p.inputs_tiles.getD idx [])
          ⟨u, input.itemShape, input.slots⟩
          (List.range (p.inputs_tiles.getD idx []).length) buckets
          (fun k hk => by
            have hkr := List.mem_range.mp hk
            exact ⟨hkr, lt_of_lt_of_le hkr hsl0⟩)
          ⟨k0, List.mem_range.mpr hk0,
            fun hc => absurd hc.2 (not_lt.mpr (hbad hc.1))⟩
        simp only [barrierInputsLoop, hre, e2, oget, ebind_ok, herr, ebind_err]
      · have e2 : p.inputs_tiles.get? idx = none :=
          List.get?_eq_none.mpr (not_lt.mp hidx)
        simp only [barrierInputsLoop, hre, e2, oget, ebind_ok, ebind_err]

/-- The unchecked preconditions of the barrier bucketing loop, as the claim
words them: `inputs_tiles` at least as long as the input list, and every tile
index of every per-input tile array within `[0, max_tile]`. -/
def BarrierPre (p : TileDataBarrierParams) (inputs : List Tensor) : Prop :=
  inputs.length ≤ p.inputs_tiles.length ∧
  ∀ j, j < inputs.length →
    ∀ tl ∈ p.inputs_tiles.getD j [], 0 ≤ tl ∧ tl ≤ p.max_tile

instance (p : TileDataBarrierParams) (inputs : List Tensor) :
    Decidable (BarrierPre p inputs) := by
  unfold BarrierPre; infer_instance

theorem barrierPre_iff (p : TileDataBarrierParams) (inputs : List Tensor) :
    BarrierPre p inputs ↔
      BarrierAccessOkFrom p (p.max_tile + 1).toNat 0 inputs := by
  constructor
  · rintro ⟨hlen, htl⟩ j hj
    refine ⟨by rw [Nat.zero_add]; exact lt_of_lt_of_le hj hlen, fun k hk => ?_⟩
    rw [Nat.zero_add] at hk ⊢
    obtain ⟨h1, h2⟩ := htl j hj _ (getD_mem 0 hk)
    exact ⟨h1, by omega⟩
  · intro hacc
    constructor
    · cases inputs with
      | nil => simp
      | cons a l =>
        have := (hacc (a :: l).length.pred (by simp)).1
        rw [Nat.zero_add] at this
        simp only [List.length_cons, Nat.pred_succ] at this ⊢
        omega
    · intro j hj
      obtain ⟨hidx, hk⟩ := hacc j hj
      rw [Nat.zero_add] at hk
      refine (forall_mem_getD (p.inputs_tiles.getD j []) 0 _).mpr ?_
      intro k hkl
      obtain ⟨h1, h2⟩ := hk k hkl
      exact ⟨h1, by omega⟩

/-- C10: with supported element types and adequate slot counts, the barrier's
construction succeeds exactly when the unchecked preconditions hold —
`len(inputs_tiles) ≥ len(inputs)` and every tile index of every per-input tile
array in `[0, max_tile]` — and when they fail, it dies with the out-of-bounds
vector access (undefined behaviour in the C++), never with a validation
error: nothing validates these descriptor invariants. -/
theorem barrier_bucketing_preconditions (g : Graph) (inputs : List Tensor)
    (p : TileDataBarrierParams)
    (hne : inputs ≠ [])
    (hsup : ∀ i ∈ inputs, barrierSupported i.dtype = true)
    (hsl : BarrierSlotsOkFrom p 0 inputs) :
    ((∃ r, TileDataBarrierPrimitive.program g inputs p = .ok r) ↔
      BarrierPre p inputs) ∧
    (¬ BarrierPre p inputs →
      TileDataBarrierPrimitive.program g inputs p = .error .oobAccess) := by
  have hnlt : ¬ inputs.length < 1 := by
    cases inputs with
    | nil => exact absurd rfl hne
    | cons a l => simp
  have hlen0 : (List.replicate (p.max_tile + 1).toNat
      ([] : List TensorSlot)).length = (p.max_tile + 1).toNat :=
    List.length_replicate ..
  have herr : ¬ BarrierPre p inputs →
      TileDataBarrierPrimitive.program g inputs p = .error .oobAccess := by
    intro hnp
    have hnacc : ¬ BarrierAccessOkFrom p (p.max_tile + 1).toNat 0 inputs :=
      fun h => hnp ((barrierPre_iff p inputs).mpr h)
    have hloop := barrierInputsLoop_err p inputs 0
      (List.replicate (p.max_tile + 1).toNat []) hsup hsl
      (by rw [hlen0]; exact hnacc)
    rw [TileDataBarrierPrimitive.program, if_neg hnlt]
    simp only [hloop, ebind_err]
  refine ⟨⟨?_, ?_⟩, herr⟩
  · rintro ⟨r, hr⟩
    by_contra hnp
    rw [herr hnp] at hr
    exact absurd hr (by simp)
  · intro hp
    obtain ⟨b', hprog, -, -⟩ := barrierProgram_eq g inputs p hne hsup hsl
      ((barrierPre_iff p inputs).mp hp)
    exact ⟨_, hprog⟩

/-- C10 witness: one 8-bit input with tile array `[0, 5]` and
`max_tile = 2` — the precondition fails, so the iff forces the failure. -/
theorem barrier_bucketing_preconditions_witness :
    ((∃ r, TileDataBarrierPrimitive.program ⟨[], []⟩
        [⟨.bool, [], [⟨0, 0⟩, ⟨0, 1⟩]⟩] ⟨"BarrierVertex", [[0, 5]], 2⟩ =
          .ok r) ↔
      BarrierPre ⟨"BarrierVertex", [[0, 5]], 2⟩
        [⟨.bool, [], [⟨0, 0⟩, ⟨0, 1⟩]⟩]) ∧
    (¬ BarrierPre ⟨"BarrierVertex", [[0, 5]], 2⟩
        [⟨.bool, [], [⟨0, 0⟩, ⟨0, 1⟩]⟩] →
      TileDataBarrierPrimitive.program ⟨[], []⟩
        [⟨.bool, [], [⟨0, 0⟩, ⟨0, 1⟩]⟩] ⟨"BarrierVertex", [[0, 5]], 2⟩ =
          .error .oobAccess) :=
  barrier_bucketing_preconditions ⟨[], []⟩ [⟨.bool, [], [⟨0, 0⟩, ⟨0, 1⟩]⟩]
    ⟨"BarrierVertex", [[0, 5]], 2⟩ (by decide) (by decide) (by decide)

/-! ### C9: equation compiler InOut resolution -/

theorem findIdx?_some_bound {α : Type} (p : α → Bool) :
    ∀ (l : List α) (s i : Nat), List.findIdx? p l s = some i →
      s ≤ i ∧ i - s < l.length
  | [], s, i, h => by simp [List.findIdx?_nil] at h
  | a :: l, s, i, h => by
    rw [List.findIdx?_cons] at h
    by_cases hp : p a
    · rw [if_pos hp, Option.some.injEq] at h
      subst h
      exact ⟨le_refl s, by simp⟩
    · rw [if_neg hp] at h
      obtain ⟨h1, h2⟩ := findIdx?_some_bound p l (s + 1) i h
      exact ⟨by omega, by simp only [List.length_cons]; omega⟩

theorem findIdx?_some_lt {α : Type} (p : α → Bool) (l : List α) (i : Nat)
    (h : List.findIdx? p l = some i) : i < l.length := by
  obtain ⟨h1, h2⟩ := findIdx?_some_bound p l 0 i h
  omega

/-- The output-allocation loop succeeds when every `InOut` output has a name
match, and then each `InOut` output position holds, by storage identity, the
input at the index of the first name match. -/
theorem allocLoop_ok (e : TileMapEquation) (inputs : List Tensor)
    (hlen : inputs.length = e.inputs_info.length) :
    ∀ (outs_info : List VertexIOInfo) (g : Graph),
      (∀ o ∈ outs_info, o.iotype = .Out ∨ o.iotype = .InOut) →
      (∀ o ∈ outs_info, o.iotype = .InOut →
        (e.inputs_info.findIdx? (fun ii => ii.name = o.name)).isSome) →
      ∃ g' outs, allocLoop e inputs outs_info g = .ok (g', outs) ∧
        outs.length = outs_info.length ∧
        ∀ j, (hj : j < outs_info.length) →
          (outs_info.get ⟨j, hj⟩).iotype = .InOut →
          ∃ i, e.inputs_info.findIdx?
              (fun ii => ii.name = (outs_info.get ⟨j, hj⟩).name) = some i ∧
            outs.get? j = inputs.get? i
  | [], g, _, _ => ⟨g, [], rfl, rfl, fun j hj => absurd hj (by simp)⟩
  | o :: rest, g, hroles, hmatch => by
    have hroles' := fun o' ho' => hroles o' (List.mem_cons_of_mem _ ho')
    have hmatch' := fun o' ho' => hmatch o' (List.mem_cons_of_mem _ ho')
    rcases hroles o (List.mem_cons_self _ _) with hOut | hInOut
    · obtain ⟨g', outs, hrec, hlen', hj'⟩ := allocLoop_ok e inputs hlen rest
        (createShardedVariable g o.aval.dtype o.aval.shape e.tiles).1
        hroles' hmatch'
      refine ⟨g', (createShardedVariable g o.aval.dtype o.aval.shape e.tiles).2
          :: outs, ?_, by simp [hlen'], ?_⟩
      · simp only [allocLoop, hOut, hrec]
      · intro j hj hio
        cases j with
        | zero => exact absurd hio (by simp [List.get, hOut])
        | succ j =>
          obtain ⟨i, hi, he⟩ := hj' j (by simpa using hj) (by simpa using hio)
          exact ⟨i, hi, by simpa using he⟩
    · obtain ⟨i, hi⟩ := Option.isSome_iff_exists.mp
        (hmatch o (List.mem_cons_self _ _) hInOut)
      have hilt : i < inputs.length := by
        rw [hlen]
        exact findIdx?_some_lt _ _ _ hi
      have hgi : inputs.get? i = some (inputs.getD i default) :=
        get?_eq_some_getD _ _ _ hilt
      obtain ⟨g', outs, hrec, hlen', hj'⟩ := allocLoop_ok e inputs hlen rest g
        hroles' hmatch'
      refine ⟨g', inputs.getD i default :: outs, ?_, by simp [hlen'], ?_⟩
      · simp only [allocLoop, hInOut, hi, Option.getD_some, hgi, hrec]
      · intro j hj hio
        cases j with
        | zero => exact ⟨i, by simpa [List.get] using hi,
            by simp only [List.get?_cons_zero]; exact hgi.symm⟩
        | succ j =>
          obtain ⟨i', hi', he⟩ := hj' j (by simpa using hj) (by simpa using hio)
          exact ⟨i', hi', by simpa using he⟩

/-- The output-allocation loop fails as soon as some `InOut` output has no
name match (`inputs.at(inputs_info.size())` throws). -/
theorem allocLoop_err (e : TileMapEquation) (inputs : List Tensor)
    (hlen : inputs.length = e.inputs_info.length) :
    ∀ (outs_info : List VertexIOInfo) (g : Graph),
      (∀ o ∈ outs_info, o.iotype = .Out ∨ o.iotype = .InOut) →
      ¬(∀ o ∈ outs_info, o.iotype = .InOut →
        (e.inputs_info.findIdx? (fun ii => ii.name = o.name)).isSome) →
      ∃ err, allocLoop e inputs outs_info g = .error err
  | [], g, _, hn => absurd (by simp) hn
  | o :: rest, g, hroles, hn => by
    have hroles' := fun o' ho' => hroles o' (List.mem_cons_of_mem _ ho')
    by_cases hhead : o.iotype = .InOut →
        (e.inputs_info.findIdx? (fun ii => ii.name = o.name)).isSome
    · have hn' : ¬(∀ o' ∈ rest, o'.iotype = .InOut →
          (e.inputs_info.findIdx? (fun ii => ii.name = o'.name)).isSome) := by
        intro hall
        refine hn (fun o' ho' => ?_)
        rcases List.mem_cons.mp ho' with h0 | h1
        · exact h0 ▸ hhead
        · exact hall o' h1
      rcases hroles o (List.mem_cons_self _ _) with hOut | hInOut
      · obtain ⟨err, herr⟩ := allocLoop_err e inputs hlen rest
          (createShardedVariable g o.aval.dtype o.aval.shape e.tiles).1
          hroles' hn'
        exact ⟨err, by simp only [allocLoop, hOut, herr]⟩
      · obtain ⟨i, hi⟩ := Option.isSome_iff_exists.mp (hhead hInOut)
        have hilt : i < inputs.length := by
          rw [hlen]
          exact findIdx?_some_lt _ _ _ hi
        have hgi : inputs.get? i = some (inputs.getD i default) :=
          get?_eq_some_getD _ _ _ hilt
        obtain ⟨err, herr⟩ := allocLoop_err e inputs hlen rest g hroles' hn'
        exact ⟨err, by
          simp only [allocLoop, hInOut, hi, Option.getD_some, hgi, herr]⟩
    · push_neg at hhead
      obtain ⟨hInOut, hnone⟩ := hhead
      have hfi : e.inputs_info.findIdx? (fun ii => ii.name = o.name) = none :=
        Option.not_isSome_iff_eq_none.mp hnone
      have hgnone : inputs.get? e.inputs_info.length = none :=
        List.get?_eq_none.mpr (by rw [hlen])
      refine ⟨(BuildError.validation "vector::at: out of range", g), ?_⟩
      simp only [allocLoop, hInOut, hfi, Option.getD_none, hgnone]

/-- C9 counterexample: two inputs named `x` (more than one match) and an
`InOut` output named `x` — the claim demands a failure, but the allocation
succeeds, silently reusing the FIRST matching input's storage. -/
theorem inout_duplicate_counterexample :
    ((⟨"p", "v", [0],
        [⟨"x", .In, ⟨[1], .float⟩, 1⟩, ⟨"x", .In, ⟨[1], .float⟩, 1⟩],
        [⟨"x", .InOut, ⟨[1], .float⟩, 1⟩], [], [], "", 0⟩ :
          TileMapEquation).inputs_info.filter
        (fun ii => decide (ii.name = "x"))).length = 2 ∧
    TileMapEquation.allocateOutputTensors
        ⟨"p", "v", [0],
         [⟨"x", .In, ⟨[1], .float⟩, 1⟩, ⟨"x", .In, ⟨[1], .float⟩, 1⟩],
         [⟨"x", .InOut, ⟨[1], .float⟩, 1⟩], [], [], "", 0⟩
        ⟨[], []⟩ [⟨.float, [1], [⟨7, 0⟩]⟩, ⟨.float, [1], [⟨8, 0⟩]⟩] =
      .ok (⟨[], []⟩, [⟨.float, [1], [⟨7, 0⟩]⟩]) :=
  ⟨rfl, rfl⟩

/-- C9 amended: with the asserted input-count invariant and well-formed
output roles, allocation succeeds exactly when every `InOut` output name has
at least one matching input name (no match fails — `inputs.at` throws); when
it succeeds, each `InOut` output is, by storage identity, the input at the
index of the FIRST name match — duplicate matches are not detected and cause
no failure. -/
theorem inout_first_match (e : TileMapEquation) (g : Graph)
    (inputs : List Tensor)
    (hlen : inputs.length = e.inputs_info.length)
    (hroles : ∀ o ∈ e.outputs_info,
      o.iotype = VertexIOType.Out ∨ o.iotype = VertexIOType.InOut) :
    ((∃ r, e.allocateOutputTensors g inputs = .ok r) ↔
      (∀ o ∈ e.outputs_info, o.iotype = VertexIOType.InOut →
        (e.inputs_info.findIdx? (fun ii => ii.name = o.name)).isSome)) ∧
    ((∀ o ∈ e.outputs_info, o.iotype = VertexIOType.InOut →
        (e.inputs_info.findIdx? (fun ii => ii.name = o.name)).isSome) →
      ∃ g' outs, e.allocateOutputTensors g inputs = .ok (g', outs) ∧
        outs.length = e.outputs_info.length ∧
        ∀ j, (hj : j < e.outputs_info.length) →
          (e.outputs_info.get ⟨j, hj⟩).iotype = VertexIOType.InOut →
          ∃ i, e.inputs_info.findIdx?
              (fun ii => ii.name = (e.outputs_info.get ⟨j, hj⟩).name) = some i ∧
            outs.get? j = inputs.get? i) := by
  have hwrap : e.allocateOutputTensors g inputs =
      allocLoop e inputs e.outputs_info g := by
    rw [TileMapEquation.allocateOutputTensors, if_neg (fun hc => hc hlen)]
  constructor
  · constructor
    · rintro ⟨r, hr⟩
      by_contra hn
      obtain ⟨err, herr⟩ := allocLoop_err e inputs hlen e.outputs_info g
        hroles hn
      rw [hwrap, herr] at hr
      exact absurd hr (by simp)
    · intro hall
      obtain ⟨g', outs, hok, -, -⟩ := allocLoop_ok e inputs hlen
        e.outputs_info g hroles hall
      exact ⟨(g', outs), by rw [hwrap]; exact hok⟩
  · intro hall
    obtain ⟨g', outs, hok, hlen', hj'⟩ := allocLoop_ok e inputs hlen
      e.outputs_info g hroles hall
    exact ⟨g', outs, by rw [hwrap]; exact hok, hlen', hj'⟩

/-- C9 witness: one `InOut` output with a unique matching input. -/
theorem inout_first_match_witness :
    ∃ r, TileMapEquation.allocateOutputTensors
        ⟨"p", "v", [0], [⟨"x", .In, ⟨[1], .float⟩, 1⟩],
         [⟨"x", .InOut, ⟨[1], .float⟩, 1⟩], [], [], "", 0⟩
        ⟨[], []⟩ [⟨.float, [1], [⟨7, 0⟩]⟩] = .ok r := by
  obtain ⟨hiff, -⟩ := inout_first_match
    ⟨"p", "v", [0], [⟨"x", .In, ⟨[1], .float⟩, 1⟩],
     [⟨"x", .InOut, ⟨[1], .float⟩, 1⟩], [], [], "", 0⟩
    ⟨[], []⟩ [⟨.float, [1], [⟨7, 0⟩]⟩] (by decide) (by decide)
  exact hiff.mpr (by decide)

/-! ### C4: failure atomicity of the equation compiler -/

/-- C4 counterexample: a rank-3 input connection makes the equation compiler
throw while connecting the first vertex — but the error state already holds
the allocated output variable and the added compute set.  The failure is
observable as partially built state: the graph passed by reference has grown
from zero variables and zero compute sets to one of each. -/
theorem equation_atomicity_counterexample :
    TileMapEquationCall.program ⟨[], []⟩ [⟨.float, [1], [⟨5, 0⟩]⟩]
        ⟨"p", "v", [0], [⟨"x", .In, ⟨[1], .float⟩, 3⟩],
         [⟨"y", .Out, ⟨[1], .float⟩, 1⟩], [], [], "", 0⟩ =
      .error (.validation "IPU IO vertex tensor must of rank 1 or 2.",
              ⟨[⟨.float, [1], 1, [0]⟩], [[]]⟩) ∧
    (⟨[⟨.float, [1], 1, [0]⟩], [[]]⟩ : Graph).vars.length = 1 ∧
    (⟨[⟨.float, [1], 1, [0]⟩], [[]]⟩ : Graph).computeSets.length = 1 ∧
    (⟨[], []⟩ : Graph).vars.length = 0 ∧
    (⟨[], []⟩ : Graph).computeSets.length = 0 :=
  ⟨rfl, rfl, rfl, rfl, rfl⟩

/-- C4 amended: when the equation compiler fails mid-construction (here: a
connection rank outside {1,2} detected while connecting the input port of the
first vertex), the caller receives no program and no output handles, but the
graph mutations already performed are NOT rolled back: the error carries the
graph still holding the freshly allocated output tensor and the added compute
set. -/
theorem equation_failure_partial_state (g : Graph) (X : Tensor)
    (e : TileMapEquation) (nm nm2 : String) (av av2 : ShapedArray) (r : Nat)
    (hin : e.inputs_info = [⟨nm, .In, av, r⟩])
    (hout : e.outputs_info = [⟨nm2, .Out, av2, 1⟩])
    (hr1 : r ≠ 1) (hr2 : r ≠ 2)
    (htl : e.tiles ≠ [])
    (hX : X.slots ≠ []) :
    ∃ g', TileMapEquationCall.program g [X] e =
        .error (.validation "IPU IO vertex tensor must of rank 1 or 2.", g') ∧
      g'.vars.length = g.vars.length + 1 ∧
      g'.computeSets.length = g.computeSets.length + 1 := by
  obtain ⟨t, ts, htl'⟩ : ∃ t ts, e.tiles = t :: ts := by
    cases htls : e.tiles with
    | nil => exact absurd htls htl
    | cons a l => exact ⟨a, l, rfl⟩
  obtain ⟨s0, ss, hX'⟩ : ∃ s0 ss, X.slots = s0 :: ss := by
    cases hXs : X.slots with
    | nil => exact absurd hXs hX
    | cons a l => exact ⟨a, l, rfl⟩
  have halloc : e.allocateOutputTensors g [X] =
      .ok ((createShardedVariable g av2.dtype av2.shape e.tiles).1,
           [(createShardedVariable g av2.dtype av2.shape e.tiles).2]) := by
    rw [TileMapEquation.allocateOutputTensors, if_neg (by simp [hin]), hout]
    simp only [allocLoop]
  have hbv : buildVertex e [X]
      [(createShardedVariable g av2.dtype av2.shape e.tiles).2] 0 =
        .error (.validation "IPU IO vertex tensor must of rank 1 or 2.") := by
    have hget0 : e.tiles.get? 0 = some t := by rw [htl']; rfl
    have hin0 : e.inputs_info.get? 0 = some ⟨nm, .In, av, r⟩ := by
      rw [hin]; rfl
    have hsl0 : X.slots.get? 0 = some s0 := by rw [hX']; rfl
    have hcr : VertexIOInfo.connectReshape ⟨nm, .In, av, r⟩ s0 =
        .error (.validation "IPU IO vertex tensor must of rank 1 or 2.") := by
      rw [VertexIOInfo.connectReshape]
      simp only [if_neg hr1, if_neg hr2]
    simp only [buildVertex, hget0, oget, ebind_ok, List.length_cons,
      List.length_nil, List.range_succ, List.range_zero, List.nil_append,
      connectInputs, hin0, List.get?_cons_zero, hsl0, hcr, ebind_err]
  have hadd : e.add (createShardedVariable g av2.dtype av2.shape e.tiles).1
      [X] [(createShardedVariable g av2.dtype av2.shape e.tiles).2] =
        .error (.validation "IPU IO vertex tensor must of rank 1 or 2.",
          ((createShardedVariable g av2.dtype av2.shape e.tiles).1.addComputeSet).1) := by
    rw [TileMapEquation.add, if_neg (by simp [hin]), if_neg (by simp [hout])]
    have hrange : List.range e.tiles.length =
        0 :: List.map Nat.succ (List.range ts.length) := by
      rw [htl', List.length_cons, List.range_succ_eq_map]
    rw [hrange]
    simp only [addVertexLoop, hbv]
  refine ⟨((createShardedVariable g av2.dtype av2.shape e.tiles).1.addComputeSet).1,
    ?_, ?_, ?_⟩
  · rw [TileMapEquationCall.program, halloc]
    simp only [hadd]
  · simp [Graph.addComputeSet, createShardedVariable]
  · simp [Graph.addComputeSet, createShardedVariable]

/-- C4 amended witness: the counterexample instance, through the general
statement. -/
theorem equation_failure_partial_state_witness :
    ∃ g', TileMapEquationCall.program ⟨[], []⟩ [⟨.float, [1], [⟨5, 0⟩]⟩]
        ⟨"p", "v", [0], [⟨"x", .In, ⟨[1], .float⟩, 3⟩],
         [⟨"y", .Out, ⟨[1], .float⟩, 1⟩], [], [], "", 0⟩ =
        .error (.validation "IPU IO vertex tensor must of rank 1 or 2.", g') ∧
      g'.vars.length = (⟨[], []⟩ : Graph).vars.length + 1 ∧
      g'.computeSets.length = (⟨[], []⟩ : Graph).computeSets.length + 1 :=
  equation_failure_partial_state ⟨[], []⟩ ⟨.float, [1], [⟨5, 0⟩]⟩
    ⟨"p", "v", [0], [⟨"x", .In, ⟨[1], .float⟩, 3⟩],
     [⟨"y", .Out, ⟨[1], .float⟩, 1⟩], [], [], "", 0⟩
    "x" "y" ⟨[1], .float⟩ ⟨[1], .float⟩ 3
    rfl rfl (by decide) (by decide) (by decide) (by decide)
